import Mathlib

/-!
# Command requirement handler (`server/events/command_requirement_handler.go`)

A shallow embedding of `DefaultCommandRequirementHandler` and its four
validation methods, followed by theorems about them.

* Requirement tags are Go strings; the `switch` statements are rendered as
  `if … else if …` chains in the order of the `case` clauses.
* `for … range` loops with early `return` are rendered as structural recursion
  over the ranged list.
* The `WorkingDir` collaborator performs I/O.  Its method `HasDiverged` is
  rendered as a state transformer over an arbitrary world state `σ`; the
  validators thread that state, so a call of the collaborator is visible as a
  state transition.
-/

set_option autoImplicit false

namespace Atlantis

/-! ## Data model -/

/-- Go `error` values; `none` is `nil`. -/
abbrev GoError := String

/-- Modelled from the spec: `raw.ApprovedRequirement` is declared in package
`server/core/config/raw`, which is not part of the source at hand; the spec names the
tag `Approved`.  Of the four tag constants only their being pairwise distinct is used:
all four are `case` constants of the one `switch` in `ValidateApplyProject`. -/
def ApprovedRequirement : String := "approved"

/-- Modelled from the spec: `raw.MergeableRequirement` is declared in package
`server/core/config/raw`, which is not part of the source at hand; the spec names the
tag `Mergeable`. -/
def MergeableRequirement : String := "mergeable"

/-- Modelled from the spec: `raw.UnDivergedRequirement` is declared in package
`server/core/config/raw`, which is not part of the source at hand; the spec names the
tag `UnDiverged`. -/
def UnDivergedRequirement : String := "undiverged"

/-- Modelled from the spec: `valid.PoliciesPassedCommandReq` is declared in package
`server/core/config/valid`, which is not part of the source at hand; the spec names the
tag `PoliciesPassed`. -/
def PoliciesPassedCommandReq : String := "policies_passed"

/-- Modelled from the spec: `models.ProjectPlanStatus` is declared in package
`server/events/models`, which is not part of the source at hand.  The spec describes an
enumeration that "includes at least `Applied`, `PlannedNoChanges`, and other
non-satisfying states (errored, discarded, planned-with-changes, etc.)". -/
inductive ProjectPlanStatus where
  | ErroredPlanStatus
  | ErroredApplyStatus
  | PlannedPlanStatus
  | PlannedNoChangesPlanStatus
  | ErroredPolicyCheckStatus
  | PassedPolicyCheckStatus
  | DiscardedPlanStatus
  | AppliedPlanStatus
  deriving DecidableEq, Repr

/-- Modelled from the spec: `models.ProjectStatus`, an entry of `PullStatus.Projects`,
"sibling `{ProjectName, Status}` pairs". -/
structure ProjectStatus where
  ProjectName : String
  Status : ProjectPlanStatus
  deriving DecidableEq, Repr

/-- Modelled from the spec: `models.PullStatus`, of which only `Projects` is read. -/
structure PullStatus where
  Projects : List ProjectStatus
  deriving DecidableEq, Repr

/-- Modelled from the spec: `models.ApprovalStatus`, `{ IsApproved: bool }`. -/
structure ApprovalStatus where
  IsApproved : Bool
  deriving DecidableEq, Repr

/-- Modelled from the spec: `models.PullReqStatus`,
`{ ApprovalStatus: { IsApproved: bool }, Mergeable: bool }`. -/
structure PullReqStatus where
  ApprovalStatus : ApprovalStatus
  Mergeable : Bool
  deriving DecidableEq, Repr

/-- Modelled from the spec: the logger `ctx.Log`; it is only handed on to
`WorkingDir.HasDiverged`. -/
structure SimpleLogging where
  handle : Nat
  deriving DecidableEq, Repr

/-- Modelled from the spec: `command.ProjectContext`, restricted to the fields the handler
reads.  `PolicyCleared` is the value of the method `ctx.PolicyCleared()`, which is
"computed and owned entirely outside this core; this core only reads it". -/
structure ProjectContext where
  Log : SimpleLogging
  PlanRequirements : List String
  ApplyRequirements : List String
  ImportRequirements : List String
  PullReqStatus : PullReqStatus
  PolicyCleared : Bool
  DependsOn : List String
  PullStatus : PullStatus
  deriving DecidableEq, Repr

/-- Modelled from the spec: the `WorkingDir` interface (the Divergence Oracle),
`HasDiverged(log, repoDir: path) → bool`.  The call may perform I/O, so it reads and
updates a world state `σ`. -/
structure WorkingDir (σ : Type) where
  HasDiverged : SimpleLogging → String → σ → Bool × σ

/-- The struct `DefaultCommandRequirementHandler`. -/
structure DefaultCommandRequirementHandler (σ : Type) where
  WorkingDir : WorkingDir σ

/-- The pair of named results `(failure string, err error)`. -/
structure Result where
  failure : String
  err : Option GoError
  deriving DecidableEq, Repr

/-! ## The validators -/

/-- The `for _, req := range ctx.PlanRequirements` loop of `ValidatePlanProject`,
on the remaining requirements. -/
def ValidatePlanProject.loop {σ : Type} (a : DefaultCommandRequirementHandler σ)
    (repoDir : String) (ctx : ProjectContext) : List String → σ → Result × σ
  | [], w => (⟨"", none⟩, w)
  | req :: rest, w =>
    if req = ApprovedRequirement then
      if !ctx.PullReqStatus.ApprovalStatus.IsApproved then
        (⟨"Pull request must be approved according to the project's approval rules before running plan.", none⟩, w)
      else ValidatePlanProject.loop a repoDir ctx rest w
    else if req = MergeableRequirement then
      if !ctx.PullReqStatus.Mergeable then
        (⟨"Pull request must be mergeable before running plan.", none⟩, w)
      else ValidatePlanProject.loop a repoDir ctx rest w
    else if req = UnDivergedRequirement then
      if (a.WorkingDir.HasDiverged ctx.Log repoDir w).1 then
        (⟨"Default branch must be rebased onto pull request before running plan.", none⟩,
          (a.WorkingDir.HasDiverged ctx.Log repoDir w).2)
      else ValidatePlanProject.loop a repoDir ctx rest (a.WorkingDir.HasDiverged ctx.Log repoDir w).2
    else ValidatePlanProject.loop a repoDir ctx rest w

/-- The method `ValidatePlanProject`. -/
def ValidatePlanProject {σ : Type} (a : DefaultCommandRequirementHandler σ)
    (repoDir : String) (ctx : ProjectContext) (w : σ) : Result × σ :=
  ValidatePlanProject.loop a repoDir ctx ctx.PlanRequirements w

/-- The `for _, req := range ctx.ApplyRequirements` loop of `ValidateApplyProject`,
on the remaining requirements. -/
def ValidateApplyProject.loop {σ : Type} (a : DefaultCommandRequirementHandler σ)
    (repoDir : String) (ctx : ProjectContext) : List String → σ → Result × σ
  | [], w => (⟨"", none⟩, w)
  | req :: rest, w =>
    if req = ApprovedRequirement then
      if !ctx.PullReqStatus.ApprovalStatus.IsApproved then
        (⟨"Pull request must be approved according to the project's approval rules before running apply.", none⟩, w)
      else ValidateApplyProject.loop a repoDir ctx rest w
    else if req = PoliciesPassedCommandReq then
      if !ctx.PolicyCleared then
        (⟨"All policies must pass for project before running apply.", none⟩, w)
      else ValidateApplyProject.loop a repoDir ctx rest w
    else if req = MergeableRequirement then
      if !ctx.PullReqStatus.Mergeable then
        (⟨"Pull request must be mergeable before running apply.", none⟩, w)
      else ValidateApplyProject.loop a repoDir ctx rest w
    else if req = UnDivergedRequirement then
      if (a.WorkingDir.HasDiverged ctx.Log repoDir w).1 then
        (⟨"Default branch must be rebased onto pull request before running apply.", none⟩,
          (a.WorkingDir.HasDiverged ctx.Log repoDir w).2)
      else ValidateApplyProject.loop a repoDir ctx rest (a.WorkingDir.HasDiverged ctx.Log repoDir w).2
    else ValidateApplyProject.loop a repoDir ctx rest w

/-- The method `ValidateApplyProject`. -/
def ValidateApplyProject {σ : Type} (a : DefaultCommandRequirementHandler σ)
    (repoDir : String) (ctx : ProjectContext) (w : σ) : Result × σ :=
  ValidateApplyProject.loop a repoDir ctx ctx.ApplyRequirements w

/-- The `for _, req := range ctx.ImportRequirements` loop of `ValidateImportProject`,
on the remaining requirements. -/
def ValidateImportProject.loop {σ : Type} (a : DefaultCommandRequirementHandler σ)
    (repoDir : String) (ctx : ProjectContext) : List String → σ → Result × σ
  | [], w => (⟨"", none⟩, w)
  | req :: rest, w =>
    if req = ApprovedRequirement then
      if !ctx.PullReqStatus.ApprovalStatus.IsApproved then
        (⟨"Pull request must be approved according to the project's approval rules before running import.", none⟩, w)
      else ValidateImportProject.loop a repoDir ctx rest w
    else if req = MergeableRequirement then
      if !ctx.PullReqStatus.Mergeable then
        (⟨"Pull request must be mergeable before running import.", none⟩, w)
      else ValidateImportProject.loop a repoDir ctx rest w
    else if req = UnDivergedRequirement then
      if (a.WorkingDir.HasDiverged ctx.Log repoDir w).1 then
        (⟨"Default branch must be rebased onto pull request before running import.", none⟩,
          (a.WorkingDir.HasDiverged ctx.Log repoDir w).2)
      else ValidateImportProject.loop a repoDir ctx rest (a.WorkingDir.HasDiverged ctx.Log repoDir w).2
    else ValidateImportProject.loop a repoDir ctx rest w

/-- The method `ValidateImportProject`. -/
def ValidateImportProject {σ : Type} (a : DefaultCommandRequirementHandler σ)
    (repoDir : String) (ctx : ProjectContext) (w : σ) : Result × σ :=
  ValidateImportProject.loop a repoDir ctx ctx.ImportRequirements w

/-- The inner loop `for _, project := range ctx.PullStatus.Projects` of
`ValidateProjectDependencies`, on the remaining entries: `some r` when the loop body
returns `r`, `none` when the loop runs to its end. -/
def ValidateProjectDependencies.inner (dependOnProject : String) :
    List ProjectStatus → Option Result
  | [] => none
  | project :: rest =>
    if project.ProjectName = dependOnProject
        ∧ project.Status ≠ ProjectPlanStatus.AppliedPlanStatus
        ∧ project.Status ≠ ProjectPlanStatus.PlannedNoChangesPlanStatus then
      some ⟨"Can't apply your project unless you apply its dependencies: ["
              ++ project.ProjectName ++ "]", none⟩
    else ValidateProjectDependencies.inner dependOnProject rest

/-- The outer loop `for _, dependOnProject := range ctx.DependsOn` of
`ValidateProjectDependencies`, on the remaining names. -/
def ValidateProjectDependencies.outer (ctx : ProjectContext) : List String → Result
  | [] => ⟨"", none⟩
  | dependOnProject :: rest =>
    match ValidateProjectDependencies.inner dependOnProject ctx.PullStatus.Projects with
    | some r => r
    | none => ValidateProjectDependencies.outer ctx rest

/-- The method `ValidateProjectDependencies`; it does not use its receiver. -/
def ValidateProjectDependencies (ctx : ProjectContext) : Result :=
  ValidateProjectDependencies.outer ctx ctx.DependsOn

/-! ## Vocabulary of the specification -/

/-- The three actions that carry a configured requirement sequence. -/
inductive Action where
  | plan
  | apply
  | importAct
  deriving DecidableEq, Repr

/-- The action word that ends each message. -/
def Action.word : Action → String
  | Action.plan => "plan"
  | Action.apply => "apply"
  | Action.importAct => "import"

/-- The requirement sequence configured for an action. -/
def Action.requirements (act : Action) (ctx : ProjectContext) : List String :=
  match act with
  | Action.plan => ctx.PlanRequirements
  | Action.apply => ctx.ApplyRequirements
  | Action.importAct => ctx.ImportRequirements

/-- The context `ctx` with the requirement sequence of `act` replaced by `reqs`. -/
def Action.withRequirements (act : Action) (ctx : ProjectContext) (reqs : List String) :
    ProjectContext :=
  match act with
  | Action.plan => { ctx with PlanRequirements := reqs }
  | Action.apply => { ctx with ApplyRequirements := reqs }
  | Action.importAct => { ctx with ImportRequirements := reqs }

/-- The validator of an action: `ValidatePlanProject`, `ValidateApplyProject` or
`ValidateImportProject`. -/
def Validate {σ : Type} (act : Action) (a : DefaultCommandRequirementHandler σ)
    (repoDir : String) (ctx : ProjectContext) (w : σ) : Result × σ :=
  match act with
  | Action.plan => ValidatePlanProject a repoDir ctx w
  | Action.apply => ValidateApplyProject a repoDir ctx w
  | Action.importAct => ValidateImportProject a repoDir ctx w

/-- The specification's table of messages, by action and violated requirement.  The
policy message exists for apply only. -/
def message (act : Action) (req : String) : String :=
  if req = ApprovedRequirement then
    "Pull request must be approved according to the project's approval rules before running "
      ++ act.word ++ "."
  else if req = MergeableRequirement then
    "Pull request must be mergeable before running " ++ act.word ++ "."
  else if req = UnDivergedRequirement then
    "Default branch must be rebased onto pull request before running " ++ act.word ++ "."
  else if req = PoliciesPassedCommandReq ∧ act = Action.apply then
    "All policies must pass for project before running apply."
  else ""

/-- The specification's table of violations: whether requirement `req` of action `act`
is violated in context `ctx` when the Divergence Oracle answers `diverged`. -/
def violated (act : Action) (ctx : ProjectContext) (diverged : Bool) (req : String) : Bool :=
  (decide (req = ApprovedRequirement) && !ctx.PullReqStatus.ApprovalStatus.IsApproved)
  || (decide (req = MergeableRequirement) && !ctx.PullReqStatus.Mergeable)
  || (decide (req = UnDivergedRequirement) && diverged)
  || (decide (act = Action.apply) && decide (req = PoliciesPassedCommandReq)
        && !ctx.PolicyCleared)

/-- A status that satisfies a dependency: `Applied` or `PlannedNoChanges`. -/
def dependencySatisfied (s : ProjectPlanStatus) : Bool :=
  decide (s = ProjectPlanStatus.AppliedPlanStatus)
  || decide (s = ProjectPlanStatus.PlannedNoChangesPlanStatus)

/-- The rejection message of `ValidateProjectDependencies` naming dependency `d`. -/
def dependencyMessage (d : String) : String :=
  "Can't apply your project unless you apply its dependencies: [" ++ d ++ "]"

/-- Whether entry `p` is an unmet record of dependency `d`: it carries the name `d` and a
status other than `Applied` and `PlannedNoChanges`. -/
def unmet (d : String) (p : ProjectStatus) : Bool :=
  decide (p.ProjectName = d) && !dependencySatisfied p.Status

/-- The loop shared by the three validators, written once over the tables `violated` and
`message`; a proof device, shown below to agree with each validator's own loop. -/
def checkLoop {σ : Type} (act : Action) (a : DefaultCommandRequirementHandler σ)
    (repoDir : String) (ctx : ProjectContext) : List String → σ → Result × σ
  | [], w => (⟨"", none⟩, w)
  | req :: rest, w =>
    if req = UnDivergedRequirement then
      if (a.WorkingDir.HasDiverged ctx.Log repoDir w).1 then
        (⟨message act req, none⟩, (a.WorkingDir.HasDiverged ctx.Log repoDir w).2)
      else checkLoop act a repoDir ctx rest (a.WorkingDir.HasDiverged ctx.Log repoDir w).2
    else if violated act ctx false req then (⟨message act req, none⟩, w)
    else checkLoop act a repoDir ctx rest w

/-- The part of a message that stands in front of the action word, for the three
requirements every validator has a case for. -/
def stem (req : String) : String :=
  if req = ApprovedRequirement then
    "Pull request must be approved according to the project's approval rules before running "
  else if req = MergeableRequirement then
    "Pull request must be mergeable before running "
  else if req = UnDivergedRequirement then
    "Default branch must be rebased onto pull request before running "
  else ""

/-! ## Sample oracles and contexts -/

/-- A handler whose oracle lives in the trivial world and always answers `d`. -/
def constHandler (d : Bool) : DefaultCommandRequirementHandler Unit :=
  ⟨⟨fun _ _ w => (d, w)⟩⟩

/-- A handler whose oracle answers `d` and whose world is the number of calls made so
far. -/
def countingHandler (d : Bool) : DefaultCommandRequirementHandler Nat :=
  ⟨⟨fun _ _ n => (d, n + 1)⟩⟩

/-- A context with empty sequences in which the pull request is approved and mergeable and
the policies are cleared. -/
def baseCtx : ProjectContext :=
  { Log := ⟨0⟩
    PlanRequirements := []
    ApplyRequirements := []
    ImportRequirements := []
    PullReqStatus := ⟨⟨true⟩, true⟩
    PolicyCleared := true
    DependsOn := []
    PullStatus := ⟨[]⟩ }

/-- Apply requirements `[PoliciesPassed, Mergeable, Approved]` on a pull request that has
cleared its policies but is not mergeable. -/
def ctxPoliciesMergeableApproved : ProjectContext :=
  { baseCtx with
    ApplyRequirements := [PoliciesPassedCommandReq, MergeableRequirement, ApprovedRequirement]
    PullReqStatus := ⟨⟨true⟩, false⟩ }

/-- The example of the specification: `net` applied, `db` errored, both depended on. -/
def ctxNetDb : ProjectContext :=
  { baseCtx with
    DependsOn := ["net", "db"]
    PullStatus := ⟨[⟨"net", ProjectPlanStatus.AppliedPlanStatus⟩,
                    ⟨"db", ProjectPlanStatus.ErroredPlanStatus⟩]⟩ }

/-- One dependency `db` with two entries: the first applied, the second errored. -/
def ctxDbTwice : ProjectContext :=
  { baseCtx with
    DependsOn := ["db"]
    PullStatus := ⟨[⟨"db", ProjectPlanStatus.AppliedPlanStatus⟩,
                    ⟨"db", ProjectPlanStatus.ErroredPlanStatus⟩]⟩ }

/-- Apply requirements `[Approved, PoliciesPassed, Mergeable]` on an approved pull request
that has neither cleared its policies nor become mergeable. -/
def ctxApprovedPoliciesMergeable : ProjectContext :=
  { baseCtx with
    ApplyRequirements := [ApprovedRequirement, PoliciesPassedCommandReq, MergeableRequirement]
    PullReqStatus := ⟨⟨true⟩, false⟩
    PolicyCleared := false }

/-- Plan requirements `[Approved, UnDiverged]` on a pull request that is not approved. -/
def ctxApprovedUnDiverged : ProjectContext :=
  { baseCtx with
    PlanRequirements := [ApprovedRequirement, UnDivergedRequirement]
    PullReqStatus := ⟨⟨false⟩, true⟩ }

/-- Import requirements `[Approved, UnDiverged, Mergeable]` on an approved, mergeable pull
request. -/
def ctxImportUnDiverged : ProjectContext :=
  { baseCtx with
    ImportRequirements := [ApprovedRequirement, UnDivergedRequirement, MergeableRequirement] }

/-- Apply requirements `[Mergeable]` on a pull request that is not mergeable. -/
def ctxMergeableOnly : ProjectContext :=
  { baseCtx with
    ApplyRequirements := [MergeableRequirement]
    PullReqStatus := ⟨⟨true⟩, false⟩ }

/-- Dependencies `ghost` and `db`, of which only `db` has an entry, and that errored. -/
def ctxGhostDb : ProjectContext :=
  { baseCtx with
    DependsOn := ["ghost", "db"]
    PullStatus := ⟨[⟨"db", ProjectPlanStatus.ErroredPlanStatus⟩]⟩ }

/-- A dependency `ghost` without an entry, next to an errored project nobody depends on. -/
def ctxGhostOnly : ProjectContext :=
  { baseCtx with
    DependsOn := ["ghost"]
    PullStatus := ⟨[⟨"db", ProjectPlanStatus.ErroredPlanStatus⟩]⟩ }

/-- A dependency `ghost` and no entries at all. -/
def ctxNoProjects : ProjectContext :=
  { baseCtx with DependsOn := ["ghost"] }

/-- Apply requirements `[Mergeable, PoliciesPassed]` on an approved pull request that has
neither cleared its policies nor become mergeable. -/
def ctxMergeablePolicies : ProjectContext :=
  { baseCtx with
    ApplyRequirements := [MergeableRequirement, PoliciesPassedCommandReq]
    PullReqStatus := ⟨⟨true⟩, false⟩
    PolicyCleared := false }

/-- Plan requirements with a tag no validator knows, on a pull request that is not
approved. -/
def ctxUnknownTag : ProjectContext :=
  { baseCtx with
    PlanRequirements := ["unknown", PoliciesPassedCommandReq, ApprovedRequirement]
    PullReqStatus := ⟨⟨false⟩, true⟩
    PolicyCleared := false }

/-! ## Agreement of the validators with the shared loop -/

theorem planLoop_eq_checkLoop {σ : Type} (a : DefaultCommandRequirementHandler σ)
    (repoDir : String) (ctx : ProjectContext) (reqs : List String) (w : σ) :
    ValidatePlanProject.loop a repoDir ctx reqs w
      = checkLoop Action.plan a repoDir ctx reqs w := by
  induction reqs generalizing w with
  | nil => rfl
  | cons req rest ih =>
    simp only [ValidatePlanProject.loop, checkLoop, ih]
    by_cases h1 : req = ApprovedRequirement
    · subst h1
      cases hA : ctx.PullReqStatus.ApprovalStatus.IsApproved <;>
        simp [violated, message, hA, ApprovedRequirement, MergeableRequirement,
          UnDivergedRequirement, PoliciesPassedCommandReq, Action.word]
    by_cases h2 : req = PoliciesPassedCommandReq
    · subst h2
      cases hP : ctx.PolicyCleared <;>
        simp [violated, message, hP, ApprovedRequirement, MergeableRequirement,
          UnDivergedRequirement, PoliciesPassedCommandReq, Action.word]
    by_cases h3 : req = MergeableRequirement
    · subst h3
      cases hM : ctx.PullReqStatus.Mergeable <;>
        simp [violated, message, hM, ApprovedRequirement, MergeableRequirement,
          UnDivergedRequirement, PoliciesPassedCommandReq, Action.word]
    by_cases h4 : req = UnDivergedRequirement
    · subst h4
      cases hD : (a.WorkingDir.HasDiverged ctx.Log repoDir w).1 <;>
        simp [message, hD, ApprovedRequirement, MergeableRequirement,
          UnDivergedRequirement, PoliciesPassedCommandReq, Action.word]
    simp [violated, h1, h2, h3, h4]

theorem applyLoop_eq_checkLoop {σ : Type} (a : DefaultCommandRequirementHandler σ)
    (repoDir : String) (ctx : ProjectContext) (reqs : List String) (w : σ) :
    ValidateApplyProject.loop a repoDir ctx reqs w
      = checkLoop Action.apply a repoDir ctx reqs w := by
  induction reqs generalizing w with
  | nil => rfl
  | cons req rest ih =>
    simp only [ValidateApplyProject.loop, checkLoop, ih]
    by_cases h1 : req = ApprovedRequirement
    · subst h1
      cases hA : ctx.PullReqStatus.ApprovalStatus.IsApproved <;>
        simp [violated, message, hA, ApprovedRequirement, MergeableRequirement,
          UnDivergedRequirement, PoliciesPassedCommandReq, Action.word]
    by_cases h2 : req = PoliciesPassedCommandReq
    · subst h2
      cases hP : ctx.PolicyCleared <;>
        simp [violated, message, hP, ApprovedRequirement, MergeableRequirement,
          UnDivergedRequirement, PoliciesPassedCommandReq, Action.word]
    by_cases h3 : req = MergeableRequirement
    · subst h3
      cases hM : ctx.PullReqStatus.Mergeable <;>
        simp [violated, message, hM, ApprovedRequirement, MergeableRequirement,
          UnDivergedRequirement, PoliciesPassedCommandReq, Action.word]
    by_cases h4 : req = UnDivergedRequirement
    · subst h4
      cases hD : (a.WorkingDir.HasDiverged ctx.Log repoDir w).1 <;>
        simp [message, hD, ApprovedRequirement, MergeableRequirement,
          UnDivergedRequirement, PoliciesPassedCommandReq, Action.word]
    simp [violated, h1, h2, h3, h4]

theorem importLoop_eq_checkLoop {σ : Type} (a : DefaultCommandRequirementHandler σ)
    (repoDir : String) (ctx : ProjectContext) (reqs : List String) (w : σ) :
    ValidateImportProject.loop a repoDir ctx reqs w
      = checkLoop Action.importAct a repoDir ctx reqs w := by
  induction reqs generalizing w with
  | nil => rfl
  | cons req rest ih =>
    simp only [ValidateImportProject.loop, checkLoop, ih]
    by_cases h1 : req = ApprovedRequirement
    · subst h1
      cases hA : ctx.PullReqStatus.ApprovalStatus.IsApproved <;>
        simp [violated, message, hA, ApprovedRequirement, MergeableRequirement,
          UnDivergedRequirement, PoliciesPassedCommandReq, Action.word]
    by_cases h2 : req = PoliciesPassedCommandReq
    · subst h2
      cases hP : ctx.PolicyCleared <;>
        simp [violated, message, hP, ApprovedRequirement, MergeableRequirement,
          UnDivergedRequirement, PoliciesPassedCommandReq, Action.word]
    by_cases h3 : req = MergeableRequirement
    · subst h3
      cases hM : ctx.PullReqStatus.Mergeable <;>
        simp [violated, message, hM, ApprovedRequirement, MergeableRequirement,
          UnDivergedRequirement, PoliciesPassedCommandReq, Action.word]
    by_cases h4 : req = UnDivergedRequirement
    · subst h4
      cases hD : (a.WorkingDir.HasDiverged ctx.Log repoDir w).1 <;>
        simp [message, hD, ApprovedRequirement, MergeableRequirement,
          UnDivergedRequirement, PoliciesPassedCommandReq, Action.word]
    simp [violated, h1, h2, h3, h4]

/-- Every validator is the shared loop run on the action's configured sequence. -/
theorem Validate_eq_checkLoop {σ : Type} (act : Action)
    (a : DefaultCommandRequirementHandler σ) (repoDir : String) (ctx : ProjectContext)
    (w : σ) :
    Validate act a repoDir ctx w = checkLoop act a repoDir ctx (act.requirements ctx) w := by
  cases act
  · exact planLoop_eq_checkLoop a repoDir ctx _ w
  · exact applyLoop_eq_checkLoop a repoDir ctx _ w
  · exact importLoop_eq_checkLoop a repoDir ctx _ w

/-! ## Facts about the tables -/

theorem violated_unDiverged (act : Action) (ctx : ProjectContext) (d : Bool) :
    violated act ctx d UnDivergedRequirement = d := by
  simp [violated, ApprovedRequirement, MergeableRequirement, UnDivergedRequirement,
    PoliciesPassedCommandReq]

theorem violated_of_ne_unDiverged (act : Action) (ctx : ProjectContext) (d : Bool)
    (req : String) (h : req ≠ UnDivergedRequirement) :
    violated act ctx d req = violated act ctx false req := by
  simp [violated, h]

theorem message_ne_empty_of_violated (act : Action) (ctx : ProjectContext) (d : Bool)
    (req : String) (h : violated act ctx d req = true) : message act req ≠ "" := by
  unfold violated at h
  unfold message
  by_cases h1 : req = ApprovedRequirement
  · cases act <;> simp [h1, Action.word]
  by_cases h3 : req = MergeableRequirement
  · cases act <;> simp [h1, h3, Action.word] <;> decide
  by_cases h4 : req = UnDivergedRequirement
  · cases act <;> simp [h1, h3, h4, Action.word] <;> decide
  by_cases h2 : req = PoliciesPassedCommandReq ∧ act = Action.apply
  · rw [if_neg h1, if_neg h3, if_neg h4, if_pos h2]
    decide
  · exfalso
    simp [h1, h3, h4] at h
    exact h2 ⟨h.1.2, h.1.1⟩

/-- With an oracle whose answer for `(ctx.Log, repoDir)` is `d`, the shared loop returns the
message of the first violated requirement of the list. -/
theorem checkLoop_failure {σ : Type} (act : Action) (a : DefaultCommandRequirementHandler σ)
    (repoDir : String) (ctx : ProjectContext) (d : Bool)
    (hd : ∀ w, (a.WorkingDir.HasDiverged ctx.Log repoDir w).1 = d)
    (reqs : List String) (w : σ) :
    (checkLoop act a repoDir ctx reqs w).1.failure
      = (match reqs.find? (violated act ctx d) with
         | some req => message act req
         | none => "") := by
  induction reqs generalizing w with
  | nil => rfl
  | cons req rest ih =>
    unfold checkLoop
    by_cases h4 : req = UnDivergedRequirement
    · subst h4
      cases d with
      | true => simp [hd, List.find?_cons, violated_unDiverged]
      | false => simp [hd, List.find?_cons, violated_unDiverged, ih]
    · rw [if_neg h4, List.find?_cons, violated_of_ne_unDiverged act ctx d req h4]
      cases hv : violated act ctx false req
      · simp [ih]
      · simp

/-! ## C1: the first violated requirement decides -/

/-- C1: for plan, apply and import alike, with an oracle that answers `diverged` for
`(ctx.Log, repoDir)`, the returned reason is the message of the first requirement of the
configured sequence, in sequence order, whose condition is violated, and it is the empty
string exactly when no requirement of the sequence is violated. -/
theorem first_violation_decides {σ : Type} (act : Action)
    (a : DefaultCommandRequirementHandler σ) (repoDir : String) (ctx : ProjectContext)
    (diverged : Bool)
    (hOracle : ∀ w, (a.WorkingDir.HasDiverged ctx.Log repoDir w).1 = diverged) (w : σ) :
    (Validate act a repoDir ctx w).1.failure
        = (match (act.requirements ctx).find? (violated act ctx diverged) with
           | some req => message act req
           | none => "")
    ∧ ((Validate act a repoDir ctx w).1.failure = ""
        ↔ ∀ req ∈ act.requirements ctx, violated act ctx diverged req = false) := by
  have key := checkLoop_failure act a repoDir ctx diverged hOracle (act.requirements ctx) w
  rw [← Validate_eq_checkLoop] at key
  refine ⟨key, ?_⟩
  rw [key]
  cases hf : (act.requirements ctx).find? (violated act ctx diverged) with
  | none =>
    simp only [true_iff]
    intro req hreq
    have := List.find?_eq_none.mp hf req hreq
    simpa using this
  | some r =>
    have hv : violated act ctx diverged r = true := List.find?_some hf
    have hm : r ∈ act.requirements ctx := List.mem_of_find?_eq_some hf
    constructor
    · intro h
      exact absurd h (message_ne_empty_of_violated act ctx diverged r hv)
    · intro h
      rw [h r hm] at hv
      exact absurd hv (by decide)

/-- C1, the example of the specification: `[PoliciesPassed, Mergeable, Approved]` with
policies cleared and the pull request not mergeable is rejected for mergeability. -/
theorem first_violation_decides_witness :
    (∀ w, ((constHandler false).WorkingDir.HasDiverged
        ctxPoliciesMergeableApproved.Log "/repo" w).1 = false)
    ∧ (Validate Action.apply (constHandler false) "/repo" ctxPoliciesMergeableApproved ()).1.failure
        = "Pull request must be mergeable before running apply." :=
  ⟨fun _ => rfl,
    (first_violation_decides Action.apply (constHandler false) "/repo"
      ctxPoliciesMergeableApproved false (fun _ => rfl) ()).1.trans (by decide)⟩

/-! ## C2: dependencies -/

theorem dependencyMessage_ne_empty (d : String) : dependencyMessage d ≠ "" := by
  intro h
  have := congrArg String.length h
  simp only [dependencyMessage, String.length_append] at this
  have h1 : "]".length = 1 := by decide
  have h2 : "".length = 0 := by decide
  omega

/-- The inner loop returns the rejection naming `d` exactly when some entry is an unmet
record of `d`. -/
theorem inner_eq (d : String) (ps : List ProjectStatus) :
    ValidateProjectDependencies.inner d ps
      = if ps.any (unmet d) then some ⟨dependencyMessage d, none⟩ else none := by
  induction ps with
  | nil => rfl
  | cons p rest ih =>
    unfold ValidateProjectDependencies.inner
    by_cases hn : p.ProjectName = d
    · cases hs : p.Status <;>
        simp [hn, hs, ih, unmet, dependencySatisfied, dependencyMessage]
    · simp [hn, ih, unmet]

/-- The outer loop returns the rejection naming the first dependency that has an unmet
record. -/
theorem outer_eq (ctx : ProjectContext) (deps : List String) :
    ValidateProjectDependencies.outer ctx deps
      = (match deps.find? (fun d => ctx.PullStatus.Projects.any (unmet d)) with
         | some d => ⟨dependencyMessage d, none⟩
         | none => ⟨"", none⟩) := by
  induction deps with
  | nil => rfl
  | cons d rest ih =>
    unfold ValidateProjectDependencies.outer
    rw [inner_eq, List.find?_cons]
    cases h : ctx.PullStatus.Projects.any (unmet d)
    · simp [ih]
    · simp

/-- C2: `ValidateProjectDependencies` returns the empty reason if and only if every entry
of `PullStatus.Projects` whose name occurs in `DependsOn` has status `Applied` or
`PlannedNoChanges`; otherwise it returns the message naming the first name of `DependsOn`
that has an entry with another status. -/
theorem dependencies_first_unmet (ctx : ProjectContext) :
    ((ValidateProjectDependencies ctx).failure = ""
      ↔ ∀ p ∈ ctx.PullStatus.Projects, p.ProjectName ∈ ctx.DependsOn →
          p.Status = ProjectPlanStatus.AppliedPlanStatus
          ∨ p.Status = ProjectPlanStatus.PlannedNoChangesPlanStatus)
    ∧ ValidateProjectDependencies ctx
        = (match ctx.DependsOn.find? (fun d => ctx.PullStatus.Projects.any (fun p =>
              decide (p.ProjectName = d)
              && !(decide (p.Status = ProjectPlanStatus.AppliedPlanStatus)
                    || decide (p.Status = ProjectPlanStatus.PlannedNoChangesPlanStatus)))) with
           | some d =>
             ⟨"Can't apply your project unless you apply its dependencies: [" ++ d ++ "]", none⟩
           | none => ⟨"", none⟩) := by
  have key := outer_eq ctx ctx.DependsOn
  refine ⟨?_, key⟩
  unfold ValidateProjectDependencies
  rw [key]
  cases hf : ctx.DependsOn.find? (fun d => ctx.PullStatus.Projects.any (unmet d)) with
  | none =>
    simp only [true_iff]
    intro p hp hd
    have h1 := List.find?_eq_none.mp hf p.ProjectName hd
    simp only [List.any_eq_true, not_exists, not_and, Bool.not_eq_true] at h1
    have h2 := h1 p hp
    have h3 : dependencySatisfied p.Status = true := by simpa [unmet] using h2
    simpa [dependencySatisfied] using h3
  | some d =>
    have hv := List.find?_some hf
    have hm : d ∈ ctx.DependsOn := List.mem_of_find?_eq_some hf
    simp only [List.any_eq_true] at hv
    obtain ⟨p, hp, hu⟩ := hv
    simp only [unmet, dependencySatisfied, Bool.and_eq_true, decide_eq_true_eq,
      Bool.not_eq_true', Bool.or_eq_false_iff, decide_eq_false_iff_not] at hu
    constructor
    · intro h
      exact absurd h (dependencyMessage_ne_empty d)
    · intro h
      rcases h p hp (hu.1 ▸ hm) with h' | h'
      · exact absurd h' hu.2.1
      · exact absurd h' hu.2.2

/-- The example of the specification for C2: with `DependsOn = ["net", "db"]`, `net`
applied and `db` errored, the rejection names `db`. -/
theorem dependencies_example :
    ValidateProjectDependencies ctxNetDb
      = ⟨"Can't apply your project unless you apply its dependencies: [db]", none⟩ := by
  decide

/-! ## C3: several entries with one name -/

/-- Names that the predicate rejects can be filtered out of a list without changing the
first element the predicate accepts. -/
theorem find?_filter_ne {α : Type} [DecidableEq α] (q : α → Bool) (d : α) (hq : q d = false)
    (l : List α) : (l.filter (fun x => decide (x ≠ d))).find? q = l.find? q := by
  induction l with
  | nil => rfl
  | cons x rest ih =>
    by_cases hx : x = d
    · subst hx
      rw [List.filter_cons_of_neg (by simp), List.find?_cons_of_neg _ (by simp [hq]), ih]
    · rw [List.filter_cons_of_pos (by simpa using hx), List.find?_cons, List.find?_cons, ih]

/-- An occurrence of a name that the predicate rejects can be dropped from a list without
changing the first element the predicate accepts. -/
theorem find?_drop_rejected {α : Type} (q : α → Bool) (d : α) (hq : q d = false)
    (pre post : List α) : (pre ++ d :: post).find? q = (pre ++ post).find? q := by
  simp [List.find?_append, List.find?_cons, hq]

/-- No entry is an unmet record of `d` when every entry named `d` has a satisfying
status. -/
theorem any_unmet_eq_false (d : String) (ps : List ProjectStatus)
    (h : ∀ p ∈ ps, p.ProjectName = d → dependencySatisfied p.Status = true) :
    ps.any (unmet d) = false := by
  rw [List.any_eq_false]
  intro p hp
  by_cases hn : p.ProjectName = d
  · simp [unmet, h p hp hn]
  · simp [unmet, hn]

/-- C3, as the code has it: a dependency is judged on all its entries, not on the first.
When every entry named `d` has status `Applied` or `PlannedNoChanges` the dependency is
treated as satisfied (dropping `d` from `DependsOn` leaves the result unchanged); when
some entry named `d` has another status, the call is rejected, whatever the status of the
first entry named `d`. -/
theorem dependency_judged_on_all_entries (ctx : ProjectContext) (d : String)
    (hd : d ∈ ctx.DependsOn) :
    ((∀ p ∈ ctx.PullStatus.Projects, p.ProjectName = d →
          p.Status = ProjectPlanStatus.AppliedPlanStatus
          ∨ p.Status = ProjectPlanStatus.PlannedNoChangesPlanStatus) →
      ValidateProjectDependencies ctx
        = ValidateProjectDependencies
            { ctx with DependsOn := ctx.DependsOn.filter (fun x => decide (x ≠ d)) })
    ∧ ((∃ p ∈ ctx.PullStatus.Projects, p.ProjectName = d
          ∧ p.Status ≠ ProjectPlanStatus.AppliedPlanStatus
          ∧ p.Status ≠ ProjectPlanStatus.PlannedNoChangesPlanStatus) →
      (ValidateProjectDependencies ctx).failure ≠ ""
      ∧ (ValidateProjectDependencies ctx).err = none) := by
  constructor
  · intro h
    have hq : ctx.PullStatus.Projects.any (unmet d) = false := by
      apply any_unmet_eq_false
      intro p hp hn
      simpa [dependencySatisfied] using h p hp hn
    unfold ValidateProjectDependencies
    rw [outer_eq, outer_eq]
    rw [find?_filter_ne (fun e => ctx.PullStatus.Projects.any (unmet e)) d hq ctx.DependsOn]
  · rintro ⟨p, hp, hn, h1, h2⟩
    unfold ValidateProjectDependencies
    rw [outer_eq]
    cases hf : ctx.DependsOn.find? (fun d => ctx.PullStatus.Projects.any (unmet d)) with
    | none =>
      exfalso
      have h3 := List.find?_eq_none.mp hf d hd
      simp only [List.any_eq_true, not_exists, not_and, Bool.not_eq_true] at h3
      have h4 := h3 p hp
      simp [unmet, dependencySatisfied, hn, h1, h2] at h4
    | some e => exact ⟨dependencyMessage_ne_empty e, rfl⟩

/-- C3 at the examples: in `ctxNetDb` the dependency `net` is satisfied and may be dropped;
in `ctxDbTwice` the dependency `db` is rejected on its second entry. -/
theorem dependency_judged_on_all_entries_witness :
    ("net" ∈ ctxNetDb.DependsOn
      ∧ ValidateProjectDependencies ctxNetDb
          = ValidateProjectDependencies
              { ctxNetDb with DependsOn := ctxNetDb.DependsOn.filter (fun x => decide (x ≠ "net")) })
    ∧ ("db" ∈ ctxDbTwice.DependsOn
      ∧ (ValidateProjectDependencies ctxDbTwice).failure ≠ ""
      ∧ (ValidateProjectDependencies ctxDbTwice).err = none) :=
  ⟨⟨by decide, (dependency_judged_on_all_entries ctxNetDb "net" (by decide)).1 (by decide)⟩,
   ⟨by decide, (dependency_judged_on_all_entries ctxDbTwice "db" (by decide)).2
      ⟨⟨"db", ProjectPlanStatus.ErroredPlanStatus⟩, by decide, rfl, by decide, by decide⟩⟩⟩

/-- C3 as stated fails: with `DependsOn = ["db"]` and entries `{db, Applied}`,
`{db, Errored}` the first entry named `db` has status `Applied`, yet the call is rejected
with the message naming `db`. -/
theorem first_entry_does_not_shield :
    ((ctxDbTwice.PullStatus.Projects.find? (fun p => decide (p.ProjectName = "db"))).map
        (fun p => p.Status) = some ProjectPlanStatus.AppliedPlanStatus)
    ∧ ValidateProjectDependencies ctxDbTwice
        = ⟨"Can't apply your project unless you apply its dependencies: [db]", none⟩
    ∧ ¬ ((ValidateProjectDependencies ctxDbTwice).failure = "") := by
  decide

/-! ## C4: policies before mergeability in the configured order -/

theorem message_unDiverged_ne_empty (act : Action) : message act UnDivergedRequirement ≠ "" :=
  message_ne_empty_of_violated act baseCtx true UnDivergedRequirement
    (violated_unDiverged act baseCtx true)

/-- The shared loop on a concatenation: the result on the first part when that rejects,
otherwise the result on the second part, run from the world the first part left. -/
theorem checkLoop_append {σ : Type} (act : Action) (a : DefaultCommandRequirementHandler σ)
    (repoDir : String) (ctx : ProjectContext) (s1 s2 : List String) (w : σ) :
    checkLoop act a repoDir ctx (s1 ++ s2) w
      = if (checkLoop act a repoDir ctx s1 w).1.failure = "" then
          checkLoop act a repoDir ctx s2 (checkLoop act a repoDir ctx s1 w).2
        else checkLoop act a repoDir ctx s1 w := by
  induction s1 generalizing w with
  | nil => simp [checkLoop]
  | cons req rest ih =>
    simp only [List.cons_append, checkLoop]
    by_cases h4 : req = UnDivergedRequirement
    · subst h4
      cases hD : (a.WorkingDir.HasDiverged ctx.Log repoDir w).1
      · simp [ih]
      · simp [message_unDiverged_ne_empty]
    · rw [if_neg h4, if_neg h4]
      cases hv : violated act ctx false req
      · simp [ih]
      · simp [message_ne_empty_of_violated act ctx false req hv]

/-- The reason returned by the shared loop is empty or the message of a violated requirement
of the list. -/
theorem checkLoop_failure_mem {σ : Type} (act : Action)
    (a : DefaultCommandRequirementHandler σ) (repoDir : String) (ctx : ProjectContext)
    (reqs : List String) (w : σ) :
    (checkLoop act a repoDir ctx reqs w).1.failure = ""
    ∨ ∃ req ∈ reqs, (∃ d : Bool, violated act ctx d req = true)
        ∧ (checkLoop act a repoDir ctx reqs w).1.failure = message act req := by
  induction reqs generalizing w with
  | nil => exact Or.inl rfl
  | cons req rest ih =>
    unfold checkLoop
    by_cases h4 : req = UnDivergedRequirement
    · rw [if_pos h4]
      cases hD : (a.WorkingDir.HasDiverged ctx.Log repoDir w).1
      · rcases ih (a.WorkingDir.HasDiverged ctx.Log repoDir w).2 with h | ⟨r, hr, hv, h⟩
        · exact Or.inl (by simpa using h)
        · exact Or.inr ⟨r, List.mem_cons_of_mem _ hr, hv, by simpa using h⟩
      · exact Or.inr ⟨req, List.mem_cons_self _ _,
          ⟨true, h4 ▸ violated_unDiverged act ctx true⟩, by simp⟩
    · rw [if_neg h4]
      cases hv : violated act ctx false req
      · rcases ih w with h | ⟨r, hr, hv', h⟩
        · exact Or.inl (by simpa using h)
        · exact Or.inr ⟨r, List.mem_cons_of_mem _ hr, hv', by simpa using h⟩
      · exact Or.inr ⟨req, List.mem_cons_self _ _, ⟨false, hv⟩, by simp⟩

theorem message_apply_eq_mergeable (req : String)
    (h : message Action.apply req = "Pull request must be mergeable before running apply.") :
    req = MergeableRequirement := by
  unfold message at h
  by_cases h1 : req = ApprovedRequirement
  · rw [if_pos h1] at h
    exact absurd h (by decide)
  by_cases h3 : req = MergeableRequirement
  · exact h3
  by_cases h4 : req = UnDivergedRequirement
  · rw [if_neg h1, if_neg h3, if_pos h4] at h
    exact absurd h (by decide)
  by_cases h2 : req = PoliciesPassedCommandReq ∧ Action.apply = Action.apply
  · rw [if_neg h1, if_neg h3, if_neg h4, if_pos h2] at h
    exact absurd h (by decide)
  · rw [if_neg h1, if_neg h3, if_neg h4, if_neg h2] at h
    exact absurd h (by decide)

theorem checkLoop_policies_head {σ : Type} (a : DefaultCommandRequirementHandler σ)
    (repoDir : String) (ctx : ProjectContext) (post : List String) (w : σ)
    (hP : ctx.PolicyCleared = false) :
    checkLoop Action.apply a repoDir ctx (PoliciesPassedCommandReq :: post) w
      = (⟨"All policies must pass for project before running apply.", none⟩, w) := by
  simp [checkLoop, violated, message, hP, ApprovedRequirement, MergeableRequirement,
    UnDivergedRequirement, PoliciesPassedCommandReq]

/-- C4: in `ValidateApplyProject`, when `PolicyCleared()` is false and `PoliciesPassed`
stands in `ApplyRequirements` before the first `Mergeable`, the reason is never the
mergeability message, also when `PullReqStatus.Mergeable` is false; and it is the policy
message when no requirement before `PoliciesPassed` is violated (for an oracle that answers
`diverged`), in particular when `PoliciesPassed` is the head of the sequence. -/
theorem policies_before_mergeable {σ : Type} (a : DefaultCommandRequirementHandler σ)
    (repoDir : String) (ctx : ProjectContext) (w : σ) (pre post : List String)
    (hseq : ctx.ApplyRequirements = pre ++ PoliciesPassedCommandReq :: post)
    (hpre : MergeableRequirement ∉ pre)
    (hP : ctx.PolicyCleared = false) :
    (ValidateApplyProject a repoDir ctx w).1.failure
        ≠ "Pull request must be mergeable before running apply."
    ∧ (∀ diverged : Bool,
        (∀ w', (a.WorkingDir.HasDiverged ctx.Log repoDir w').1 = diverged) →
        (∀ req ∈ pre, violated Action.apply ctx diverged req = false) →
        (ValidateApplyProject a repoDir ctx w).1.failure
          = "All policies must pass for project before running apply.")
    ∧ (pre = [] →
        (ValidateApplyProject a repoDir ctx w).1.failure
          = "All policies must pass for project before running apply.") := by
  have hV : ValidateApplyProject a repoDir ctx w
      = checkLoop Action.apply a repoDir ctx (pre ++ PoliciesPassedCommandReq :: post) w := by
    unfold ValidateApplyProject
    rw [applyLoop_eq_checkLoop, hseq]
  refine ⟨?_, ?_, ?_⟩
  · rw [hV, checkLoop_append]
    by_cases he : (checkLoop Action.apply a repoDir ctx pre w).1.failure = ""
    · rw [if_pos he, checkLoop_policies_head a repoDir ctx post _ hP]
      show "All policies must pass for project before running apply."
        ≠ "Pull request must be mergeable before running apply."
      decide
    · rw [if_neg he]
      rcases checkLoop_failure_mem Action.apply a repoDir ctx pre w with h | ⟨r, hr, _, h⟩
      · exact absurd h he
      · intro hm
        rw [h] at hm
        exact hpre (message_apply_eq_mergeable r hm ▸ hr)
  · intro diverged hOracle hnone
    rw [hV, checkLoop_failure Action.apply a repoDir ctx diverged hOracle, List.find?_append]
    have h1 : pre.find? (violated Action.apply ctx diverged) = none := by
      rw [List.find?_eq_none]
      intro x hx
      simp [hnone x hx]
    have h2 : violated Action.apply ctx diverged PoliciesPassedCommandReq = true := by
      simp [violated, hP]
    rw [h1, Option.none_or, List.find?_cons, h2]
    show message Action.apply PoliciesPassedCommandReq
      = "All policies must pass for project before running apply."
    decide
  · intro hnil
    subst hnil
    rw [hV, List.nil_append, checkLoop_policies_head a repoDir ctx post w hP]

/-- C4 at an example: `[Approved, PoliciesPassed, Mergeable]` on an approved pull request
with policies failing and not mergeable is rejected for the policies. -/
theorem policies_before_mergeable_witness :
    ctxApprovedPoliciesMergeable.ApplyRequirements
        = [ApprovedRequirement] ++ PoliciesPassedCommandReq :: [MergeableRequirement]
    ∧ MergeableRequirement ∉ [ApprovedRequirement]
    ∧ ctxApprovedPoliciesMergeable.PolicyCleared = false
    ∧ ctxApprovedPoliciesMergeable.PullReqStatus.Mergeable = false
    ∧ (ValidateApplyProject (countingHandler true) "/repo" ctxApprovedPoliciesMergeable 0).1.failure
        ≠ "Pull request must be mergeable before running apply."
    ∧ (ValidateApplyProject (countingHandler true) "/repo" ctxApprovedPoliciesMergeable 0).1.failure
        = "All policies must pass for project before running apply." :=
  ⟨rfl, by decide, rfl, rfl,
    (policies_before_mergeable (countingHandler true) "/repo" ctxApprovedPoliciesMergeable 0
      [ApprovedRequirement] [MergeableRequirement] rfl (by decide) rfl).1,
    (policies_before_mergeable (countingHandler true) "/repo" ctxApprovedPoliciesMergeable 0
      [ApprovedRequirement] [MergeableRequirement] rfl (by decide) rfl).2.1 true
      (fun _ => rfl) (by decide)⟩

/-! ## C5: no oracle call after an earlier rejection -/

/-- On a list without `UnDiverged` the shared loop leaves the world as it found it and
returns the message of the first violated requirement, whatever the oracle would answer. -/
theorem checkLoop_no_unDiverged {σ : Type} (act : Action)
    (a : DefaultCommandRequirementHandler σ) (repoDir : String) (ctx : ProjectContext)
    (d : Bool) (reqs : List String) (hno : UnDivergedRequirement ∉ reqs) (w : σ) :
    checkLoop act a repoDir ctx reqs w
      = (⟨match reqs.find? (violated act ctx d) with
           | some req => message act req
           | none => "", none⟩, w) := by
  induction reqs with
  | nil => rfl
  | cons req rest ih =>
    have h4 : req ≠ UnDivergedRequirement := fun h => hno (h ▸ List.mem_cons_self _ _)
    have hrest : UnDivergedRequirement ∉ rest := fun h => hno (List.mem_cons_of_mem _ h)
    unfold checkLoop
    rw [if_neg h4, List.find?_cons, violated_of_ne_unDiverged act ctx d req h4]
    cases hv : violated act ctx false req
    · simp [ih hrest]
    · simp

/-- C5: if a requirement that is not `UnDiverged` and stands before every `UnDiverged`
entry of the configured sequence is violated, the validator returns the message of the
first violated requirement with a null error and leaves the oracle's world untouched (it
makes no call of `HasDiverged`); the result is the same for every oracle. -/
theorem short_circuit_before_oracle {σ : Type} (act : Action)
    (a : DefaultCommandRequirementHandler σ) (repoDir : String) (ctx : ProjectContext)
    (w : σ) (pre post : List String) (req : String) (diverged : Bool)
    (hseq : act.requirements ctx = pre ++ req :: post)
    (hpre : UnDivergedRequirement ∉ pre) (hreq : req ≠ UnDivergedRequirement)
    (hviol : violated act ctx diverged req = true) :
    Validate act a repoDir ctx w
        = (⟨match (act.requirements ctx).find? (violated act ctx diverged) with
             | some r => message act r
             | none => "", none⟩, w)
    ∧ (Validate act a repoDir ctx w).1.failure ≠ ""
    ∧ (∀ (τ : Type) (b : DefaultCommandRequirementHandler τ) (v : τ),
        (Validate act b repoDir ctx v).1 = (Validate act a repoDir ctx w).1
        ∧ (Validate act b repoDir ctx v).2 = v) := by
  have hno : UnDivergedRequirement ∉ pre ++ [req] := by
    simp only [List.mem_append, List.mem_singleton, not_or]
    exact ⟨hpre, fun h => hreq h.symm⟩
  have hsplit : act.requirements ctx = (pre ++ [req]) ++ post := by simp [hseq]
  obtain ⟨r, hr⟩ : ∃ r, (pre ++ [req]).find? (violated act ctx diverged) = some r := by
    cases hf : (pre ++ [req]).find? (violated act ctx diverged) with
    | some r => exact ⟨r, rfl⟩
    | none =>
      have := List.find?_eq_none.mp hf req (by simp)
      exact absurd hviol this
  have hne : message act r ≠ "" :=
    message_ne_empty_of_violated act ctx diverged r (List.find?_some hr)
  have hfull : (act.requirements ctx).find? (violated act ctx diverged) = some r := by
    rw [hsplit, List.find?_append, hr]
    rfl
  have main : ∀ (τ : Type) (b : DefaultCommandRequirementHandler τ) (v : τ),
      Validate act b repoDir ctx v = (⟨message act r, none⟩, v) := by
    intro τ b v
    rw [Validate_eq_checkLoop, hsplit, checkLoop_append,
      checkLoop_no_unDiverged act b repoDir ctx diverged (pre ++ [req]) hno v, hr]
    simp [hne]
  refine ⟨?_, ?_, ?_⟩
  · rw [main, hfull]
  · rw [main]
    exact hne
  · intro τ b v
    rw [main, main]
    exact ⟨rfl, rfl⟩

/-- C5 at the example of the specification: `PlanRequirements = [Approved, UnDiverged]` on
a pull request that is not approved is rejected for approval, and the call counter of the
oracle stays at zero. -/
theorem short_circuit_before_oracle_witness :
    Action.plan.requirements ctxApprovedUnDiverged
        = [] ++ ApprovedRequirement :: [UnDivergedRequirement]
    ∧ UnDivergedRequirement ∉ ([] : List String)
    ∧ ApprovedRequirement ≠ UnDivergedRequirement
    ∧ violated Action.plan ctxApprovedUnDiverged true ApprovedRequirement = true
    ∧ ValidatePlanProject (countingHandler true) "/repo" ctxApprovedUnDiverged 0
        = (⟨"Pull request must be approved according to the project's approval rules before running plan.",
            none⟩, 0) :=
  ⟨rfl, by decide, by decide, by decide,
    (short_circuit_before_oracle Action.plan (countingHandler true) "/repo"
      ctxApprovedUnDiverged 0 [] [UnDivergedRequirement] ApprovedRequirement true rfl
      (by decide) (by decide) (by decide)).1.trans (by decide)⟩

/-! ## C6: the oracle has no error channel -/

/-- The shared loop returns a null error. -/
theorem checkLoop_err {σ : Type} (act : Action) (a : DefaultCommandRequirementHandler σ)
    (repoDir : String) (ctx : ProjectContext) (reqs : List String) (w : σ) :
    (checkLoop act a repoDir ctx reqs w).1.err = none := by
  induction reqs generalizing w with
  | nil => rfl
  | cons req rest ih =>
    unfold checkLoop
    split_ifs <;> first | rfl | exact ih _

/-- Replacing the configured sequence of an action changes nothing else that the shared
loop reads. -/
theorem checkLoop_withRequirements {σ : Type} (act : Action)
    (a : DefaultCommandRequirementHandler σ) (repoDir : String) (ctx : ProjectContext)
    (s reqs : List String) (w : σ) :
    checkLoop act a repoDir (act.withRequirements ctx s) reqs w
      = checkLoop act a repoDir ctx reqs w := by
  have hlog : (act.withRequirements ctx s).Log = ctx.Log := by cases act <;> rfl
  have hv : ∀ r, violated act (act.withRequirements ctx s) false r = violated act ctx false r := by
    intro r
    cases act <;> rfl
  induction reqs generalizing w with
  | nil => rfl
  | cons req rest ih =>
    unfold checkLoop
    rw [hlog, hv]
    simp only [ih]

theorem requirements_withRequirements (act : Action) (ctx : ProjectContext)
    (s : List String) : act.requirements (act.withRequirements ctx s) = s := by
  cases act <;> rfl

theorem message_unDiverged (act : Action) :
    message act UnDivergedRequirement
      = "Default branch must be rebased onto pull request before running "
          ++ act.word ++ "." := by
  simp [message, ApprovedRequirement, MergeableRequirement, UnDivergedRequirement]

/-- C6, as the code has it: the oracle answers with a boolean only.  When an `UnDiverged`
requirement is reached (nothing before it is violated), the answer `true` is a rejection
with the rebase message and a null error, the answer `false` lets the validation go on with
the rest of the sequence, and the error returned is null either way. -/
theorem unDiverged_evaluation_returns_no_error {σ : Type} (act : Action)
    (a : DefaultCommandRequirementHandler σ) (repoDir : String) (ctx : ProjectContext)
    (w : σ) (pre post : List String)
    (hseq : act.requirements ctx = pre ++ UnDivergedRequirement :: post)
    (hpre : ∀ req ∈ pre, req ≠ UnDivergedRequirement ∧ violated act ctx false req = false) :
    ((a.WorkingDir.HasDiverged ctx.Log repoDir w).1 = true →
        Validate act a repoDir ctx w
          = (⟨"Default branch must be rebased onto pull request before running "
                ++ act.word ++ ".", none⟩,
              (a.WorkingDir.HasDiverged ctx.Log repoDir w).2))
    ∧ ((a.WorkingDir.HasDiverged ctx.Log repoDir w).1 = false →
        Validate act a repoDir ctx w
          = Validate act a repoDir (act.withRequirements ctx post)
              (a.WorkingDir.HasDiverged ctx.Log repoDir w).2)
    ∧ (Validate act a repoDir ctx w).1.err = none := by
  have hno : UnDivergedRequirement ∉ pre := fun h => (hpre _ h).1 rfl
  have hfind : pre.find? (violated act ctx false) = none := by
    rw [List.find?_eq_none]
    intro x hx
    simp [(hpre x hx).2]
  have hprefix : checkLoop act a repoDir ctx pre w = (⟨"", none⟩, w) := by
    rw [checkLoop_no_unDiverged act a repoDir ctx false pre hno w, hfind]
  have hV : Validate act a repoDir ctx w
      = checkLoop act a repoDir ctx (UnDivergedRequirement :: post) w := by
    rw [Validate_eq_checkLoop, hseq, checkLoop_append, hprefix]
    simp
  refine ⟨?_, ?_, ?_⟩
  · intro hD
    rw [hV, ← message_unDiverged]
    simp [checkLoop, hD]
  · intro hD
    rw [hV, Validate_eq_checkLoop, requirements_withRequirements,
      checkLoop_withRequirements]
    simp [checkLoop, hD]
  · rw [Validate_eq_checkLoop]
    exact checkLoop_err act a repoDir ctx _ w

/-- C6 at an example: import with `[Approved, UnDiverged, Mergeable]` on an approved pull
request and an oracle that answers `true` is rejected with the rebase message and a null
error, after one call of the oracle. -/
theorem unDiverged_evaluation_returns_no_error_witness :
    Action.importAct.requirements ctxImportUnDiverged
        = [ApprovedRequirement] ++ UnDivergedRequirement :: [MergeableRequirement]
    ∧ (∀ req ∈ [ApprovedRequirement],
        req ≠ UnDivergedRequirement
        ∧ violated Action.importAct ctxImportUnDiverged false req = false)
    ∧ ((countingHandler true).WorkingDir.HasDiverged ctxImportUnDiverged.Log "/repo" 0).1 = true
    ∧ ValidateImportProject (countingHandler true) "/repo" ctxImportUnDiverged 0
        = (⟨"Default branch must be rebased onto pull request before running import.",
            none⟩, 1) :=
  ⟨rfl, by decide, rfl,
    ((unDiverged_evaluation_returns_no_error Action.importAct (countingHandler true) "/repo"
      ctxImportUnDiverged 0 [ApprovedRequirement] [MergeableRequirement] rfl
      (by decide)).1 rfl).trans (by decide)⟩

/-- C6 as stated fails: no context, repoDir, oracle and world make a validator return a
non-null error. -/
theorem no_validator_returns_an_error :
    ¬ ∃ (σ : Type) (act : Action) (a : DefaultCommandRequirementHandler σ)
        (repoDir : String) (ctx : ProjectContext) (w : σ),
        (Validate act a repoDir ctx w).1.err ≠ none := by
  rintro ⟨σ, act, a, repoDir, ctx, w, h⟩
  apply h
  rw [Validate_eq_checkLoop]
  exact checkLoop_err act a repoDir ctx _ w

/-! ## C7: a requirement that is not configured is not checked -/

/-- Two contexts with the same logger and the same verdict on every requirement of the list
give the same run of the shared loop. -/
theorem checkLoop_congr {σ : Type} (act : Action) (a : DefaultCommandRequirementHandler σ)
    (repoDir : String) (ctx ctx' : ProjectContext) (hlog : ctx'.Log = ctx.Log)
    (reqs : List String)
    (hv : ∀ req ∈ reqs, violated act ctx' false req = violated act ctx false req) (w : σ) :
    checkLoop act a repoDir ctx' reqs w = checkLoop act a repoDir ctx reqs w := by
  induction reqs generalizing w with
  | nil => rfl
  | cons req rest ih =>
    have hrest : ∀ r ∈ rest, violated act ctx' false r = violated act ctx false r :=
      fun r hr => hv r (List.mem_cons_of_mem _ hr)
    unfold checkLoop
    rw [hlog, hv req (List.mem_cons_self _ _)]
    simp only [ih hrest]

/-- On a list without `UnDiverged`, the reason and error do not depend on the oracle. -/
theorem checkLoop_oracle_irrelevant {σ τ : Type} (act : Action)
    (a : DefaultCommandRequirementHandler σ) (b : DefaultCommandRequirementHandler τ)
    (repoDir : String) (ctx : ProjectContext) (reqs : List String)
    (hno : UnDivergedRequirement ∉ reqs) (w : σ) (v : τ) :
    (checkLoop act a repoDir ctx reqs w).1 = (checkLoop act b repoDir ctx reqs v).1 := by
  rw [checkLoop_no_unDiverged act a repoDir ctx false reqs hno w,
    checkLoop_no_unDiverged act b repoDir ctx false reqs hno v]

/-- C7: for plan, apply and import alike, a tag that does not occur in the configured
sequence is not checked: the result is the same when only `ApprovalStatus.IsApproved`
changes (`Approved` absent), only `PullReqStatus.Mergeable` changes (`Mergeable` absent),
only the oracle changes (`UnDiverged` absent), or only `PolicyCleared()` changes
(`PoliciesPassed` absent). -/
theorem absent_requirement_not_checked {σ : Type} (act : Action)
    (a : DefaultCommandRequirementHandler σ) (repoDir : String) (ctx : ProjectContext)
    (w : σ) :
    (ApprovedRequirement ∉ act.requirements ctx → ∀ flag : Bool,
        Validate act a repoDir
            { ctx with PullReqStatus := { ctx.PullReqStatus with ApprovalStatus := ⟨flag⟩ } } w
          = Validate act a repoDir ctx w)
    ∧ (MergeableRequirement ∉ act.requirements ctx → ∀ flag : Bool,
        Validate act a repoDir
            { ctx with PullReqStatus := { ctx.PullReqStatus with Mergeable := flag } } w
          = Validate act a repoDir ctx w)
    ∧ (UnDivergedRequirement ∉ act.requirements ctx →
        ∀ (τ : Type) (b : DefaultCommandRequirementHandler τ) (v : τ),
          (Validate act b repoDir ctx v).1 = (Validate act a repoDir ctx w).1)
    ∧ (PoliciesPassedCommandReq ∉ act.requirements ctx → ∀ flag : Bool,
        Validate act a repoDir { ctx with PolicyCleared := flag } w
          = Validate act a repoDir ctx w) := by
  refine ⟨?_, ?_, ?_, ?_⟩
  · intro habs flag
    rw [Validate_eq_checkLoop, Validate_eq_checkLoop]
    have hreq : act.requirements
        { ctx with PullReqStatus := { ctx.PullReqStatus with ApprovalStatus := ⟨flag⟩ } }
        = act.requirements ctx := by cases act <;> rfl
    rw [hreq]
    refine checkLoop_congr act a repoDir ctx _ (by rfl) _ ?_ w
    intro req hr
    have hne : req ≠ ApprovedRequirement := fun h => habs (h ▸ hr)
    simp [violated, hne]
  · intro habs flag
    rw [Validate_eq_checkLoop, Validate_eq_checkLoop]
    have hreq : act.requirements
        { ctx with PullReqStatus := { ctx.PullReqStatus with Mergeable := flag } }
        = act.requirements ctx := by cases act <;> rfl
    rw [hreq]
    refine checkLoop_congr act a repoDir ctx _ (by rfl) _ ?_ w
    intro req hr
    have hne : req ≠ MergeableRequirement := fun h => habs (h ▸ hr)
    simp [violated, hne]
  · intro habs τ b v
    rw [Validate_eq_checkLoop, Validate_eq_checkLoop]
    exact checkLoop_oracle_irrelevant act b a repoDir ctx _ habs v w
  · intro habs flag
    rw [Validate_eq_checkLoop, Validate_eq_checkLoop]
    have hreq : act.requirements { ctx with PolicyCleared := flag }
        = act.requirements ctx := by cases act <;> rfl
    rw [hreq]
    refine checkLoop_congr act a repoDir ctx _ (by rfl) _ ?_ w
    intro req hr
    have hne : req ≠ PoliciesPassedCommandReq := fun h => habs (h ▸ hr)
    simp [violated, hne]

/-- C7 at examples: apply with `[Mergeable]` gives the same result whether or not the pull
request is approved, whatever the oracle and whether or not the policies are cleared; plan
with `[Approved, UnDiverged]` gives the same result whether or not the pull request is
mergeable. -/
theorem absent_requirement_not_checked_witness :
    (ApprovedRequirement ∉ Action.apply.requirements ctxMergeableOnly
      ∧ Validate Action.apply (constHandler false) "/repo"
          { ctxMergeableOnly with
            PullReqStatus := { ctxMergeableOnly.PullReqStatus with ApprovalStatus := ⟨false⟩ } } ()
        = Validate Action.apply (constHandler false) "/repo" ctxMergeableOnly ())
    ∧ (MergeableRequirement ∉ Action.plan.requirements ctxApprovedUnDiverged
      ∧ Validate Action.plan (constHandler false) "/repo"
          { ctxApprovedUnDiverged with
            PullReqStatus := { ctxApprovedUnDiverged.PullReqStatus with Mergeable := false } } ()
        = Validate Action.plan (constHandler false) "/repo" ctxApprovedUnDiverged ())
    ∧ (UnDivergedRequirement ∉ Action.apply.requirements ctxMergeableOnly
      ∧ (Validate Action.apply (countingHandler true) "/repo" ctxMergeableOnly 0).1
        = (Validate Action.apply (constHandler false) "/repo" ctxMergeableOnly ()).1)
    ∧ (PoliciesPassedCommandReq ∉ Action.apply.requirements ctxMergeableOnly
      ∧ Validate Action.apply (constHandler false) "/repo"
          { ctxMergeableOnly with PolicyCleared := false } ()
        = Validate Action.apply (constHandler false) "/repo" ctxMergeableOnly ()) :=
  ⟨⟨by decide, (absent_requirement_not_checked Action.apply (constHandler false) "/repo"
      ctxMergeableOnly ()).1 (by decide) false⟩,
   ⟨by decide, (absent_requirement_not_checked Action.plan (constHandler false) "/repo"
      ctxApprovedUnDiverged ()).2.1 (by decide) false⟩,
   ⟨by decide, (absent_requirement_not_checked Action.apply (constHandler false) "/repo"
      ctxMergeableOnly ()).2.2.1 (by decide) Nat (countingHandler true) 0⟩,
   ⟨by decide, (absent_requirement_not_checked Action.apply (constHandler false) "/repo"
      ctxMergeableOnly ()).2.2.2 (by decide) false⟩⟩

/-! ## C8: a dependency without an entry -/

/-- No entry is an unmet record of `d` when no entry is named `d`. -/
theorem any_unmet_eq_false_of_no_entry (d : String) (ps : List ProjectStatus)
    (h : ∀ p ∈ ps, p.ProjectName ≠ d) : ps.any (unmet d) = false :=
  any_unmet_eq_false d ps (fun p hp hn => absurd hn (h p hp))

/-- C8: a name of `DependsOn` without any entry in `PullStatus.Projects` never causes a
rejection: dropping an occurrence of it (or all of them) from `DependsOn` leaves the result
unchanged, and when no name of `DependsOn` has an entry, in particular when there are no
entries, the result is the empty reason with a null error. -/
theorem dependency_without_entry_passes (ctx : ProjectContext) :
    (∀ (d : String) (pre post : List String),
        ctx.DependsOn = pre ++ d :: post →
        (∀ p ∈ ctx.PullStatus.Projects, p.ProjectName ≠ d) →
        ValidateProjectDependencies ctx
            = ValidateProjectDependencies { ctx with DependsOn := pre ++ post }
          ∧ ValidateProjectDependencies ctx
            = ValidateProjectDependencies
                { ctx with DependsOn := ctx.DependsOn.filter (fun x => decide (x ≠ d)) })
    ∧ ((∀ d ∈ ctx.DependsOn, ∀ p ∈ ctx.PullStatus.Projects, p.ProjectName ≠ d) →
        ValidateProjectDependencies ctx = ⟨"", none⟩)
    ∧ (ctx.PullStatus.Projects = [] → ValidateProjectDependencies ctx = ⟨"", none⟩) := by
  have hall : (∀ d ∈ ctx.DependsOn, ∀ p ∈ ctx.PullStatus.Projects, p.ProjectName ≠ d) →
      ValidateProjectDependencies ctx = ⟨"", none⟩ := by
    intro h
    unfold ValidateProjectDependencies
    rw [outer_eq]
    have hf : ctx.DependsOn.find? (fun d => ctx.PullStatus.Projects.any (unmet d)) = none := by
      rw [List.find?_eq_none]
      intro d hd
      simp [any_unmet_eq_false_of_no_entry d _ (h d hd)]
    rw [hf]
  refine ⟨?_, hall, ?_⟩
  · intro d pre post hseq hno
    have hq := any_unmet_eq_false_of_no_entry d _ hno
    unfold ValidateProjectDependencies
    constructor
    · rw [outer_eq, outer_eq, hseq]
      rw [find?_drop_rejected (fun e => ctx.PullStatus.Projects.any (unmet e)) d hq pre post]
    · rw [outer_eq, outer_eq]
      rw [find?_filter_ne (fun e => ctx.PullStatus.Projects.any (unmet e)) d hq ctx.DependsOn]
  · intro hnil
    apply hall
    intro d _ p hp
    rw [hnil] at hp
    exact absurd hp (List.not_mem_nil p)

/-- C8 at examples: in `ctxGhostDb` the name `ghost` has no entry and may be dropped; in
`ctxGhostOnly` and `ctxNoProjects` no dependency has an entry and the call is allowed. -/
theorem dependency_without_entry_passes_witness :
    (ctxGhostDb.DependsOn = [] ++ "ghost" :: ["db"]
      ∧ (∀ p ∈ ctxGhostDb.PullStatus.Projects, p.ProjectName ≠ "ghost")
      ∧ ValidateProjectDependencies ctxGhostDb
          = ValidateProjectDependencies { ctxGhostDb with DependsOn := [] ++ ["db"] })
    ∧ ((∀ d ∈ ctxGhostOnly.DependsOn, ∀ p ∈ ctxGhostOnly.PullStatus.Projects,
          p.ProjectName ≠ d)
      ∧ ValidateProjectDependencies ctxGhostOnly = ⟨"", none⟩)
    ∧ (ctxNoProjects.PullStatus.Projects = []
      ∧ ValidateProjectDependencies ctxNoProjects = ⟨"", none⟩) :=
  ⟨⟨rfl, by decide,
      ((dependency_without_entry_passes ctxGhostDb).1 "ghost" [] ["db"] rfl (by decide)).1⟩,
   ⟨by decide, (dependency_without_entry_passes ctxGhostOnly).2.1 (by decide)⟩,
   ⟨rfl, (dependency_without_entry_passes ctxNoProjects).2.2 rfl⟩⟩

/-! ## C9: the fixed table of messages -/

/-- The messages of the table, spelled out per action. -/
theorem message_mem (act : Action) (ctx : ProjectContext) (d : Bool) (req : String)
    (hv : violated act ctx d req = true) :
    message act req ∈
      (match act with
       | Action.plan =>
         ["Pull request must be approved according to the project's approval rules before running plan.",
          "Pull request must be mergeable before running plan.",
          "Default branch must be rebased onto pull request before running plan."]
       | Action.apply =>
         ["Pull request must be approved according to the project's approval rules before running apply.",
          "Pull request must be mergeable before running apply.",
          "Default branch must be rebased onto pull request before running apply.",
          "All policies must pass for project before running apply."]
       | Action.importAct =>
         ["Pull request must be approved according to the project's approval rules before running import.",
          "Pull request must be mergeable before running import.",
          "Default branch must be rebased onto pull request before running import."]) := by
  have hne := message_ne_empty_of_violated act ctx d req hv
  unfold message at hne ⊢
  by_cases h1 : req = ApprovedRequirement
  · rw [if_pos h1]
    cases act <;> decide
  by_cases h3 : req = MergeableRequirement
  · rw [if_neg h1, if_pos h3]
    cases act <;> decide
  by_cases h4 : req = UnDivergedRequirement
  · rw [if_neg h1, if_neg h3, if_pos h4]
    cases act <;> decide
  by_cases h2 : req = PoliciesPassedCommandReq ∧ act = Action.apply
  · rw [if_neg h1, if_neg h3, if_neg h4, if_pos h2, h2.2]
    decide
  · rw [if_neg h1, if_neg h3, if_neg h4, if_neg h2] at hne
    exact absurd rfl hne

/-- The reason of a validator is empty or the table's message for a violated requirement
of the configured sequence. -/
theorem Validate_failure_mem {σ : Type} (act : Action)
    (a : DefaultCommandRequirementHandler σ) (repoDir : String) (ctx : ProjectContext)
    (w : σ) :
    (Validate act a repoDir ctx w).1.failure = ""
    ∨ ∃ req ∈ act.requirements ctx, (∃ d : Bool, violated act ctx d req = true)
        ∧ (Validate act a repoDir ctx w).1.failure = message act req := by
  rw [Validate_eq_checkLoop]
  exact checkLoop_failure_mem act a repoDir ctx _ w

/-- C9: the reason returned by `ValidatePlanProject`, `ValidateApplyProject` or
`ValidateImportProject` is empty or one of the fixed strings of that action, and it is the
entry of the table `message` for the action and a violated requirement of the configured
sequence; the policy message belongs to apply only. -/
theorem reason_from_fixed_table {σ : Type} (a : DefaultCommandRequirementHandler σ)
    (repoDir : String) (ctx : ProjectContext) (w : σ) :
    (ValidatePlanProject a repoDir ctx w).1.failure ∈
        ["",
         "Pull request must be approved according to the project's approval rules before running plan.",
         "Pull request must be mergeable before running plan.",
         "Default branch must be rebased onto pull request before running plan."]
    ∧ (ValidateApplyProject a repoDir ctx w).1.failure ∈
        ["",
         "Pull request must be approved according to the project's approval rules before running apply.",
         "Pull request must be mergeable before running apply.",
         "Default branch must be rebased onto pull request before running apply.",
         "All policies must pass for project before running apply."]
    ∧ (ValidateImportProject a repoDir ctx w).1.failure ∈
        ["",
         "Pull request must be approved according to the project's approval rules before running import.",
         "Pull request must be mergeable before running import.",
         "Default branch must be rebased onto pull request before running import."]
    ∧ (∀ act : Action,
        (Validate act a repoDir ctx w).1.failure = ""
        ∨ ∃ req ∈ act.requirements ctx, (∃ d : Bool, violated act ctx d req = true)
            ∧ (Validate act a repoDir ctx w).1.failure = message act req) := by
  refine ⟨?_, ?_, ?_, fun act => Validate_failure_mem act a repoDir ctx w⟩
  · rcases Validate_failure_mem Action.plan a repoDir ctx w with h | ⟨r, _, ⟨d, hv⟩, h⟩
    · exact h ▸ List.mem_cons_self _ _
    · exact h ▸ List.mem_cons_of_mem _ (message_mem Action.plan ctx d r hv)
  · rcases Validate_failure_mem Action.apply a repoDir ctx w with h | ⟨r, _, ⟨d, hv⟩, h⟩
    · exact h ▸ List.mem_cons_self _ _
    · exact h ▸ List.mem_cons_of_mem _ (message_mem Action.apply ctx d r hv)
  · rcases Validate_failure_mem Action.importAct a repoDir ctx w with h | ⟨r, _, ⟨d, hv⟩, h⟩
    · exact h ▸ List.mem_cons_self _ _
    · exact h ▸ List.mem_cons_of_mem _ (message_mem Action.importAct ctx d r hv)

/-! ## C10: empty sequences -/

/-- C10: with an empty configured sequence `ValidatePlanProject`, `ValidateApplyProject`
and `ValidateImportProject` return the empty reason and a null error without calling the
oracle, whatever the statuses; so does `ValidateProjectDependencies` with an empty
`DependsOn`. -/
theorem empty_sequence_is_allowed {σ : Type} (a : DefaultCommandRequirementHandler σ)
    (repoDir : String) (ctx : ProjectContext) (w : σ) :
    ValidatePlanProject a repoDir { ctx with PlanRequirements := [] } w = (⟨"", none⟩, w)
    ∧ ValidateApplyProject a repoDir { ctx with ApplyRequirements := [] } w = (⟨"", none⟩, w)
    ∧ ValidateImportProject a repoDir { ctx with ImportRequirements := [] } w
        = (⟨"", none⟩, w)
    ∧ ValidateProjectDependencies { ctx with DependsOn := [] } = ⟨"", none⟩ :=
  ⟨rfl, rfl, rfl, rfl⟩

/-! ## C11: validating twice -/

/-- With an oracle that answers `d`, the reason and error of the shared loop do not depend on
the world the run starts from. -/
theorem checkLoop_result_of_stable {σ : Type} (act : Action)
    (a : DefaultCommandRequirementHandler σ) (repoDir : String) (ctx : ProjectContext)
    (d : Bool) (hd : ∀ w, (a.WorkingDir.HasDiverged ctx.Log repoDir w).1 = d)
    (reqs : List String) (w w' : σ) :
    (checkLoop act a repoDir ctx reqs w').1 = (checkLoop act a repoDir ctx reqs w).1 := by
  have hf := checkLoop_failure act a repoDir ctx d hd reqs w
  have hf' := checkLoop_failure act a repoDir ctx d hd reqs w'
  have he := checkLoop_err act a repoDir ctx reqs w
  have he' := checkLoop_err act a repoDir ctx reqs w'
  cases h : (checkLoop act a repoDir ctx reqs w).1 with
  | mk f e =>
    cases h' : (checkLoop act a repoDir ctx reqs w').1 with
    | mk f' e' =>
      rw [h] at hf he
      rw [h'] at hf' he'
      simp only at hf he hf' he'
      rw [hf, he, hf', he']

/-- C11: with an oracle that answers the same for the same repoDir, a validator called a
second time, in the world the first call left behind (or in any other world), returns the
same reason and error as the first time; the context is a value that no validator returns
or alters, and the result of `ValidateProjectDependencies` is a function of `DependsOn` and
`PullStatus.Projects` alone. -/
theorem validation_is_idempotent {σ : Type} (act : Action)
    (a : DefaultCommandRequirementHandler σ) (repoDir : String) (ctx : ProjectContext)
    (diverged : Bool)
    (hOracle : ∀ w, (a.WorkingDir.HasDiverged ctx.Log repoDir w).1 = diverged) (w : σ) :
    (Validate act a repoDir ctx (Validate act a repoDir ctx w).2).1
        = (Validate act a repoDir ctx w).1
    ∧ (∀ w' : σ, (Validate act a repoDir ctx w').1 = (Validate act a repoDir ctx w).1)
    ∧ (∀ ctx' : ProjectContext, ctx'.DependsOn = ctx.DependsOn →
        ctx'.PullStatus.Projects = ctx.PullStatus.Projects →
        ValidateProjectDependencies ctx' = ValidateProjectDependencies ctx) := by
  have hany : ∀ w' : σ, (Validate act a repoDir ctx w').1 = (Validate act a repoDir ctx w).1 := by
    intro w'
    rw [Validate_eq_checkLoop, Validate_eq_checkLoop]
    exact checkLoop_result_of_stable act a repoDir ctx diverged hOracle _ w w'
  refine ⟨hany _, hany, ?_⟩
  intro ctx' hd hp
  unfold ValidateProjectDependencies
  rw [outer_eq, outer_eq, hd, hp]

/-- C11 at an example: import with `[Approved, UnDiverged, Mergeable]` and an oracle that
always answers `true`, called a second time after the first call has moved the call counter,
is rejected with the same message. -/
theorem validation_is_idempotent_witness :
    (∀ n, ((countingHandler true).WorkingDir.HasDiverged ctxImportUnDiverged.Log "/repo" n).1
        = true)
    ∧ (Validate Action.importAct (countingHandler true) "/repo" ctxImportUnDiverged 0).2 = 1
    ∧ (Validate Action.importAct (countingHandler true) "/repo" ctxImportUnDiverged
          (Validate Action.importAct (countingHandler true) "/repo" ctxImportUnDiverged 0).2).1
        = (Validate Action.importAct (countingHandler true) "/repo" ctxImportUnDiverged 0).1 :=
  ⟨fun _ => rfl, by decide,
    (validation_is_idempotent Action.importAct (countingHandler true) "/repo"
      ctxImportUnDiverged true (fun _ => rfl) 0).1⟩

/-! ## C12: the place of the policy case in the switch -/

/-- C12 on the code: with `ApplyRequirements = [Mergeable, PoliciesPassed]`, policies not
cleared and the pull request not mergeable (no `Approved` or `UnDiverged` requirement is
configured), `ValidateApplyProject` returns the mergeability message for every oracle, not
the policy message: the order of the `case` clauses does not reorder the checks. -/
theorem mergeable_listed_first_is_checked_first {σ : Type}
    (a : DefaultCommandRequirementHandler σ) (repoDir : String) (w : σ) :
    PoliciesPassedCommandReq ∈ ctxMergeablePolicies.ApplyRequirements
    ∧ MergeableRequirement ∈ ctxMergeablePolicies.ApplyRequirements
    ∧ ApprovedRequirement ∉ ctxMergeablePolicies.ApplyRequirements
    ∧ UnDivergedRequirement ∉ ctxMergeablePolicies.ApplyRequirements
    ∧ ctxMergeablePolicies.PolicyCleared = false
    ∧ ctxMergeablePolicies.PullReqStatus.Mergeable = false
    ∧ ValidateApplyProject a repoDir ctxMergeablePolicies w
        = (⟨"Pull request must be mergeable before running apply.", none⟩, w)
    ∧ (ValidateApplyProject a repoDir ctxMergeablePolicies w).1.failure
        ≠ "All policies must pass for project before running apply." := by
  have h : ValidateApplyProject a repoDir ctxMergeablePolicies w
      = (⟨"Pull request must be mergeable before running apply.", none⟩, w) := by
    simp [ValidateApplyProject, ValidateApplyProject.loop, ctxMergeablePolicies, baseCtx,
      ApprovedRequirement, MergeableRequirement, PoliciesPassedCommandReq]
  refine ⟨by decide, by decide, by decide, by decide, rfl, rfl, h, ?_⟩
  rw [h]
  show "Pull request must be mergeable before running apply."
    ≠ "All policies must pass for project before running apply."
  decide

/-! ## C13: tags without a case -/

/-- Requirements that are neither `UnDiverged` nor violated can be filtered out of the list
without changing the run of the shared loop. -/
theorem checkLoop_filter_inert {σ : Type} (act : Action)
    (a : DefaultCommandRequirementHandler σ) (repoDir : String) (ctx : ProjectContext)
    (keep : String → Bool)
    (hk : ∀ r, keep r = false → r ≠ UnDivergedRequirement ∧ violated act ctx false r = false)
    (reqs : List String) (w : σ) :
    checkLoop act a repoDir ctx (reqs.filter keep) w = checkLoop act a repoDir ctx reqs w := by
  induction reqs generalizing w with
  | nil => rfl
  | cons req rest ih =>
    cases hkeep : keep req
    · rw [List.filter_cons_of_neg (by simp [hkeep]), ih]
      conv_rhs => unfold checkLoop
      rw [if_neg (hk req hkeep).1, (hk req hkeep).2]
      simp
    · rw [List.filter_cons_of_pos hkeep]
      unfold checkLoop
      simp only [ih]

/-- A tag other than the four named ones is violated for no action. -/
theorem violated_unknown (act : Action) (ctx : ProjectContext) (d : Bool) (t : String)
    (h1 : t ≠ ApprovedRequirement) (h2 : t ≠ MergeableRequirement)
    (h3 : t ≠ UnDivergedRequirement) (h4 : t ≠ PoliciesPassedCommandReq) :
    violated act ctx d t = false := by
  simp [violated, h1, h2, h3, h4]

/-- The policy tag is violated for no action other than apply. -/
theorem violated_policies_of_ne_apply (act : Action) (ctx : ProjectContext) (d : Bool)
    (h : act ≠ Action.apply) : violated act ctx d PoliciesPassedCommandReq = false := by
  simp [violated, h, ApprovedRequirement, MergeableRequirement, UnDivergedRequirement,
    PoliciesPassedCommandReq]

/-- For an action other than apply, the policy tag and the policy status play no part. -/
theorem policies_inert_of_ne_apply {σ : Type} (act : Action) (h : act ≠ Action.apply)
    (a : DefaultCommandRequirementHandler σ) (repoDir : String) (ctx : ProjectContext)
    (w : σ) :
    (∀ flag : Bool,
        Validate act a repoDir { ctx with PolicyCleared := flag } w
          = Validate act a repoDir ctx w)
    ∧ Validate act a repoDir
          (act.withRequirements ctx
            ((act.requirements ctx).filter (fun r => decide (r ≠ PoliciesPassedCommandReq)))) w
        = Validate act a repoDir ctx w := by
  constructor
  · intro flag
    rw [Validate_eq_checkLoop, Validate_eq_checkLoop]
    have hreq : act.requirements { ctx with PolicyCleared := flag }
        = act.requirements ctx := by cases act <;> rfl
    rw [hreq]
    refine checkLoop_congr act a repoDir ctx _ (by rfl) _ ?_ w
    intro req _
    simp [violated, h]
  · rw [Validate_eq_checkLoop, Validate_eq_checkLoop, requirements_withRequirements,
      checkLoop_withRequirements]
    apply checkLoop_filter_inert
    intro r hr
    have hrp : r = PoliciesPassedCommandReq := by simpa using hr
    subst hrp
    exact ⟨by decide, violated_policies_of_ne_apply act ctx false h⟩

/-- C13: a tag for which a validator has no case is skipped.  `ValidatePlanProject` and
`ValidateImportProject` never check `PoliciesPassed`: their result does not depend on
`PolicyCleared()` and equals the result on the sequence with every `PoliciesPassed` entry
removed.  For all three validators, every occurrence of a tag other than the four named
ones can be removed from the sequence without changing the result. -/
theorem uncased_tags_are_skipped {σ : Type} (a : DefaultCommandRequirementHandler σ)
    (repoDir : String) (ctx : ProjectContext) (w : σ) :
    (∀ flag : Bool,
        ValidatePlanProject a repoDir { ctx with PolicyCleared := flag } w
          = ValidatePlanProject a repoDir ctx w)
    ∧ ValidatePlanProject a repoDir
          { ctx with PlanRequirements :=
              ctx.PlanRequirements.filter (fun r => decide (r ≠ PoliciesPassedCommandReq)) } w
        = ValidatePlanProject a repoDir ctx w
    ∧ (∀ flag : Bool,
        ValidateImportProject a repoDir { ctx with PolicyCleared := flag } w
          = ValidateImportProject a repoDir ctx w)
    ∧ ValidateImportProject a repoDir
          { ctx with ImportRequirements :=
              ctx.ImportRequirements.filter (fun r => decide (r ≠ PoliciesPassedCommandReq)) } w
        = ValidateImportProject a repoDir ctx w
    ∧ (∀ (act : Action) (t : String),
        t ≠ ApprovedRequirement → t ≠ MergeableRequirement →
        t ≠ UnDivergedRequirement → t ≠ PoliciesPassedCommandReq →
        Validate act a repoDir
            (act.withRequirements ctx ((act.requirements ctx).filter (fun r => decide (r ≠ t)))) w
          = Validate act a repoDir ctx w) := by
  refine ⟨(policies_inert_of_ne_apply Action.plan (by decide) a repoDir ctx w).1,
    (policies_inert_of_ne_apply Action.plan (by decide) a repoDir ctx w).2,
    (policies_inert_of_ne_apply Action.importAct (by decide) a repoDir ctx w).1,
    (policies_inert_of_ne_apply Action.importAct (by decide) a repoDir ctx w).2, ?_⟩
  intro act t h1 h2 h3 h4
  rw [Validate_eq_checkLoop, Validate_eq_checkLoop, requirements_withRequirements,
    checkLoop_withRequirements]
  apply checkLoop_filter_inert
  intro r hr
  have hrt : r = t := by simpa using hr
  subst hrt
  exact ⟨h3, violated_unknown act ctx false r h1 h2 h3 h4⟩

/-- C13 at an example: plan with `["unknown", PoliciesPassed, Approved]` on a pull request
that is not approved gives the same result with the tag `unknown` removed, namely the
approval message, although the policies are not cleared. -/
theorem uncased_tags_are_skipped_witness :
    ("unknown" ≠ ApprovedRequirement ∧ "unknown" ≠ MergeableRequirement
      ∧ "unknown" ≠ UnDivergedRequirement ∧ "unknown" ≠ PoliciesPassedCommandReq)
    ∧ Validate Action.plan (constHandler true) "/repo"
          (Action.plan.withRequirements ctxUnknownTag
            ((Action.plan.requirements ctxUnknownTag).filter
              (fun r => decide (r ≠ "unknown")))) ()
        = Validate Action.plan (constHandler true) "/repo" ctxUnknownTag ()
    ∧ ValidatePlanProject (constHandler true) "/repo" ctxUnknownTag ()
        = (⟨"Pull request must be approved according to the project's approval rules before running plan.",
            none⟩, ()) :=
  ⟨by decide,
    (uncased_tags_are_skipped (constHandler true) "/repo" ctxUnknownTag ()).2.2.2.2
      Action.plan "unknown" (by decide) (by decide) (by decide) (by decide),
    by decide⟩

/-! ## C14: the three validators side by side -/

theorem stem_message_ne_empty (req : String) (act : Action) :
    stem req ++ act.word ++ "." ≠ "" := by
  intro h
  have := congrArg String.length h
  simp only [String.length_append] at this
  have h1 : ".".length = 1 := by decide
  have h2 : "".length = 0 := by decide
  omega

/-- A requirement violated by status alone, for plan, has the same stem in every action's
message. -/
theorem message_eq_stem_of_violated_plan (act : Action) (ctx : ProjectContext) (req : String)
    (hv : violated Action.plan ctx false req = true) :
    message act req = stem req ++ act.word ++ "." := by
  unfold message stem
  by_cases h1 : req = ApprovedRequirement
  · simp [h1]
  by_cases h3 : req = MergeableRequirement
  · rw [if_neg h1, if_pos h3, if_neg h1, if_pos h3]
  · exfalso
    simp [violated, h1, h3] at hv

theorem message_unDiverged_eq_stem (act : Action) :
    message act UnDivergedRequirement = stem UnDivergedRequirement ++ act.word ++ "." := by
  simp [message, stem, ApprovedRequirement, MergeableRequirement, UnDivergedRequirement]

/-- Away from the policy tag under apply, every action has the verdict of plan. -/
theorem violated_eq_plan (act : Action) (ctx : ProjectContext) (d : Bool) (req : String)
    (h : req = PoliciesPassedCommandReq → act ≠ Action.apply) :
    violated act ctx d req = violated Action.plan ctx d req := by
  by_cases hp : req = PoliciesPassedCommandReq
  · simp [violated, h hp]
  · simp [violated, hp]

/-- One requirement, all selected actions: either every action passes it, reaching one
common world, or every action rejects it with its own message over one common stem. -/
theorem checkLoop_single_alike {σ : Type} (a : DefaultCommandRequirementHandler σ)
    (repoDir : String) (ctx : ProjectContext) (sel : Action → Prop) (req : String)
    (hs : ∀ act, sel act → req = PoliciesPassedCommandReq → act ≠ Action.apply) (w : σ) :
    (∃ w1, ∀ act, sel act → checkLoop act a repoDir ctx [req] w = (⟨"", none⟩, w1))
    ∨ (∃ w1, ∀ act, sel act →
        checkLoop act a repoDir ctx [req] w = (⟨stem req ++ act.word ++ ".", none⟩, w1)) := by
  by_cases h4 : req = UnDivergedRequirement
  · subst h4
    cases hD : (a.WorkingDir.HasDiverged ctx.Log repoDir w).1
    · exact Or.inl ⟨(a.WorkingDir.HasDiverged ctx.Log repoDir w).2, fun act _ => by
        simp [checkLoop, hD]⟩
    · exact Or.inr ⟨(a.WorkingDir.HasDiverged ctx.Log repoDir w).2, fun act _ => by
        simp [checkLoop, hD, message_unDiverged_eq_stem]⟩
  · cases hv : violated Action.plan ctx false req
    · refine Or.inl ⟨w, fun act hact => ?_⟩
      simp [checkLoop, h4, violated_eq_plan act ctx false req (hs act hact), hv]
    · refine Or.inr ⟨w, fun act hact => ?_⟩
      simp [checkLoop, h4, violated_eq_plan act ctx false req (hs act hact), hv,
        message_eq_stem_of_violated_plan act ctx req hv]

/-- A whole sequence, all selected actions: either every action passes it, reaching one
common world, or the sequence splits as `pre ++ r :: post` such that every action passes
`pre`, rejects `pre ++ [r]` with its own message over the stem of `r`, and returns that
very result on the whole sequence. -/
theorem checkLoop_alike {σ : Type} (a : DefaultCommandRequirementHandler σ)
    (repoDir : String) (ctx : ProjectContext) (sel : Action → Prop) (s : List String)
    (hs : ∀ act, sel act → ∀ r ∈ s, r = PoliciesPassedCommandReq → act ≠ Action.apply)
    (w : σ) :
    (∃ wEnd, ∀ act, sel act → checkLoop act a repoDir ctx s w = (⟨"", none⟩, wEnd))
    ∨ (∃ (pre : List String) (r : String) (post : List String) (wPre wEnd : σ),
        s = pre ++ r :: post ∧ ∀ act, sel act →
          checkLoop act a repoDir ctx pre w = (⟨"", none⟩, wPre)
          ∧ checkLoop act a repoDir ctx (pre ++ [r]) w
              = (⟨stem r ++ act.word ++ ".", none⟩, wEnd)
          ∧ checkLoop act a repoDir ctx s w = (⟨stem r ++ act.word ++ ".", none⟩, wEnd)) := by
  induction s generalizing w with
  | nil => exact Or.inl ⟨w, fun _ _ => rfl⟩
  | cons req rest ih =>
    have hs1 : ∀ act, sel act → req = PoliciesPassedCommandReq → act ≠ Action.apply :=
      fun act hact => hs act hact req (List.mem_cons_self _ _)
    have hsr : ∀ act, sel act → ∀ r ∈ rest, r = PoliciesPassedCommandReq → act ≠ Action.apply :=
      fun act hact r hr => hs act hact r (List.mem_cons_of_mem _ hr)
    rcases checkLoop_single_alike a repoDir ctx sel req hs1 w with ⟨w1, h1⟩ | ⟨w1, h1⟩
    · have step : ∀ act, sel act → ∀ l : List String,
          checkLoop act a repoDir ctx (req :: l) w = checkLoop act a repoDir ctx l w1 := by
        intro act hact l
        have happ := checkLoop_append act a repoDir ctx [req] l w
        rw [h1 act hact] at happ
        simpa using happ
      rcases ih hsr w1 with ⟨wEnd, hE⟩ | ⟨pre, r, post, wPre, wEnd, hseq, hE⟩
      · exact Or.inl ⟨wEnd, fun act hact => by rw [step act hact, hE act hact]⟩
      · refine Or.inr ⟨req :: pre, r, post, wPre, wEnd, by rw [hseq, List.cons_append], ?_⟩
        intro act hact
        refine ⟨?_, ?_, ?_⟩
        · rw [step act hact]
          exact (hE act hact).1
        · rw [List.cons_append, step act hact]
          exact (hE act hact).2.1
        · rw [step act hact]
          exact (hE act hact).2.2
    · refine Or.inr ⟨[], req, rest, w, w1, rfl, ?_⟩
      intro act hact
      refine ⟨rfl, h1 act hact, ?_⟩
      have happ := checkLoop_append act a repoDir ctx [req] rest w
      rw [h1 act hact] at happ
      simpa [stem_message_ne_empty] using happ

theorem Validate_withRequirements {σ : Type} (act : Action)
    (a : DefaultCommandRequirementHandler σ) (repoDir : String) (ctx : ProjectContext)
    (l : List String) (w : σ) :
    Validate act a repoDir (act.withRequirements ctx l) w = checkLoop act a repoDir ctx l w := by
  rw [Validate_eq_checkLoop, requirements_withRequirements, checkLoop_withRequirements]

/-- C14: run on one and the same sequence `s`, context, repoDir and oracle, the validators
evaluate the requirements alike.  When `s` holds no `PoliciesPassed` tag, either all three
return the empty reason, or `s` splits as `pre ++ r :: post` such that all three pass `pre`
and reject at `r`, each with the message `stem r ++ word ++ "."` that differs from the
others in the action word only; in both cases they leave the oracle in the same world.  For
plan and import the same holds for every `s`. -/
theorem validators_evaluate_alike {σ : Type} (a : DefaultCommandRequirementHandler σ)
    (repoDir : String) (ctx : ProjectContext) (w : σ) (s : List String) :
    (PoliciesPassedCommandReq ∉ s →
      (∃ wEnd, ∀ act : Action,
          Validate act a repoDir (act.withRequirements ctx s) w = (⟨"", none⟩, wEnd))
      ∨ (∃ (pre : List String) (r : String) (post : List String) (wPre wEnd : σ),
          s = pre ++ r :: post ∧ ∀ act : Action,
            Validate act a repoDir (act.withRequirements ctx pre) w = (⟨"", none⟩, wPre)
            ∧ Validate act a repoDir (act.withRequirements ctx (pre ++ [r])) w
                = (⟨stem r ++ act.word ++ ".", none⟩, wEnd)
            ∧ Validate act a repoDir (act.withRequirements ctx s) w
                = (⟨stem r ++ act.word ++ ".", none⟩, wEnd)))
    ∧ ((∃ wEnd, ∀ act : Action, act ≠ Action.apply →
          Validate act a repoDir (act.withRequirements ctx s) w = (⟨"", none⟩, wEnd))
      ∨ (∃ (pre : List String) (r : String) (post : List String) (wPre wEnd : σ),
          s = pre ++ r :: post ∧ ∀ act : Action, act ≠ Action.apply →
            Validate act a repoDir (act.withRequirements ctx pre) w = (⟨"", none⟩, wPre)
            ∧ Validate act a repoDir (act.withRequirements ctx (pre ++ [r])) w
                = (⟨stem r ++ act.word ++ ".", none⟩, wEnd)
            ∧ Validate act a repoDir (act.withRequirements ctx s) w
                = (⟨stem r ++ act.word ++ ".", none⟩, wEnd))) := by
  constructor
  · intro hno
    have hs : ∀ act : Action, True → ∀ r ∈ s, r = PoliciesPassedCommandReq →
        act ≠ Action.apply := fun _ _ r hr hp => absurd (hp ▸ hr) hno
    rcases checkLoop_alike a repoDir ctx (fun _ => True) s hs w with
      ⟨wEnd, hE⟩ | ⟨pre, r, post, wPre, wEnd, hseq, hE⟩
    · exact Or.inl ⟨wEnd, fun act => by
        rw [Validate_withRequirements]
        exact hE act trivial⟩
    · refine Or.inr ⟨pre, r, post, wPre, wEnd, hseq, fun act => ?_⟩
      simp only [Validate_withRequirements]
      exact hE act trivial
  · have hs : ∀ act : Action, act ≠ Action.apply → ∀ r ∈ s, r = PoliciesPassedCommandReq →
        act ≠ Action.apply := fun _ h _ _ _ => h
    rcases checkLoop_alike a repoDir ctx (fun act => act ≠ Action.apply) s hs w with
      ⟨wEnd, hE⟩ | ⟨pre, r, post, wPre, wEnd, hseq, hE⟩
    · exact Or.inl ⟨wEnd, fun act hact => by
        rw [Validate_withRequirements]
        exact hE act hact⟩
    · refine Or.inr ⟨pre, r, post, wPre, wEnd, hseq, fun act hact => ?_⟩
      simp only [Validate_withRequirements]
      exact hE act hact

/-- C14 at an example: on `[Approved, UnDiverged, Mergeable]`, with an approved, mergeable
pull request and an oracle that answers `true`, the three validators reject at `UnDiverged`
with messages that differ in the action word only. -/
theorem validators_evaluate_alike_witness :
    PoliciesPassedCommandReq ∉ [ApprovedRequirement, UnDivergedRequirement, MergeableRequirement]
    ∧ ((∃ wEnd, ∀ act : Action,
          Validate act (countingHandler true) "/repo"
            (act.withRequirements baseCtx
              [ApprovedRequirement, UnDivergedRequirement, MergeableRequirement]) 0
            = (⟨"", none⟩, wEnd))
      ∨ (∃ (pre : List String) (r : String) (post : List String) (wPre wEnd : Nat),
          [ApprovedRequirement, UnDivergedRequirement, MergeableRequirement] = pre ++ r :: post
          ∧ ∀ act : Action,
            Validate act (countingHandler true) "/repo" (act.withRequirements baseCtx pre) 0
                = (⟨"", none⟩, wPre)
            ∧ Validate act (countingHandler true) "/repo"
                  (act.withRequirements baseCtx (pre ++ [r])) 0
                = (⟨stem r ++ act.word ++ ".", none⟩, wEnd)
            ∧ Validate act (countingHandler true) "/repo"
                  (act.withRequirements baseCtx
                    [ApprovedRequirement, UnDivergedRequirement, MergeableRequirement]) 0
                = (⟨stem r ++ act.word ++ ".", none⟩, wEnd)))
    ∧ ValidatePlanProject (countingHandler true) "/repo"
          { baseCtx with PlanRequirements :=
              [ApprovedRequirement, UnDivergedRequirement, MergeableRequirement] } 0
        = (⟨"Default branch must be rebased onto pull request before running plan.", none⟩, 1)
    ∧ ValidateApplyProject (countingHandler true) "/repo"
          { baseCtx with ApplyRequirements :=
              [ApprovedRequirement, UnDivergedRequirement, MergeableRequirement] } 0
        = (⟨"Default branch must be rebased onto pull request before running apply.", none⟩, 1) :=
  ⟨by decide,
    (validators_evaluate_alike (countingHandler true) "/repo" baseCtx 0
      [ApprovedRequirement, UnDivergedRequirement, MergeableRequirement]).1 (by decide),
    by decide, by decide⟩

/-! ## C15: the error result -/

/-- The outer loop of `ValidateProjectDependencies` returns a null error. -/
theorem outer_err (ctx : ProjectContext) (deps : List String) :
    (ValidateProjectDependencies.outer ctx deps).err = none := by
  rw [outer_eq]
  cases deps.find? (fun d => ctx.PullStatus.Projects.any (unmet d)) <;> rfl

/-- C15: on every path, whatever the context, repoDir, oracle and world, each of
`ValidatePlanProject`, `ValidateApplyProject`, `ValidateImportProject` and
`ValidateProjectDependencies` returns a null error, with an empty reason as with a
rejection message. -/
theorem error_is_nil_on_every_path {σ : Type} (a : DefaultCommandRequirementHandler σ)
    (repoDir : String) (ctx : ProjectContext) (w : σ) :
    (ValidatePlanProject a repoDir ctx w).1.err = none
    ∧ (ValidateApplyProject a repoDir ctx w).1.err = none
    ∧ (ValidateImportProject a repoDir ctx w).1.err = none
    ∧ (ValidateProjectDependencies ctx).err = none := by
  refine ⟨?_, ?_, ?_, outer_err ctx ctx.DependsOn⟩
  · unfold ValidatePlanProject
    rw [planLoop_eq_checkLoop]
    exact checkLoop_err Action.plan a repoDir ctx _ w
  · unfold ValidateApplyProject
    rw [applyLoop_eq_checkLoop]
    exact checkLoop_err Action.apply a repoDir ctx _ w
  · unfold ValidateImportProject
    rw [importLoop_eq_checkLoop]
    exact checkLoop_err Action.importAct a repoDir ctx _ w

/-! ## C16: concatenated sequences -/

/-- The outer loop of `ValidateProjectDependencies` on a concatenation. -/
theorem outer_append (ctx : ProjectContext) (d1 d2 : List String) :
    ValidateProjectDependencies.outer ctx (d1 ++ d2)
      = if (ValidateProjectDependencies.outer ctx d1).failure ≠ "" then
          ValidateProjectDependencies.outer ctx d1
        else ValidateProjectDependencies.outer ctx d2 := by
  rw [outer_eq, outer_eq, List.find?_append]
  cases hf : d1.find? (fun d => ctx.PullStatus.Projects.any (unmet d)) with
  | none => simp [outer_eq]
  | some d => simp [dependencyMessage_ne_empty]

/-- C16: for plan, apply and import alike, the result on `s1 ++ s2` is the result on `s1`
when that is a rejection, and otherwise the result on `s2`, run in the world the run on
`s1` left behind; so appending requirements keeps a rejection and its reason.  With an
oracle that answers the same for the same repoDir the reason and error on `s1 ++ s2` are
those on `s1` when rejected and those on `s2` otherwise.  `ValidateProjectDependencies`
behaves the same way over a concatenation of `DependsOn`. -/
theorem validation_distributes_over_append {σ : Type} (act : Action)
    (a : DefaultCommandRequirementHandler σ) (repoDir : String) (ctx : ProjectContext)
    (w : σ) (s1 s2 : List String) :
    Validate act a repoDir (act.withRequirements ctx (s1 ++ s2)) w
        = (if (Validate act a repoDir (act.withRequirements ctx s1) w).1.failure ≠ "" then
            Validate act a repoDir (act.withRequirements ctx s1) w
          else
            Validate act a repoDir (act.withRequirements ctx s2)
              (Validate act a repoDir (act.withRequirements ctx s1) w).2)
    ∧ ((Validate act a repoDir (act.withRequirements ctx s1) w).1.failure ≠ "" →
        Validate act a repoDir (act.withRequirements ctx (s1 ++ s2)) w
          = Validate act a repoDir (act.withRequirements ctx s1) w)
    ∧ (∀ diverged : Bool,
        (∀ w', (a.WorkingDir.HasDiverged ctx.Log repoDir w').1 = diverged) →
        (Validate act a repoDir (act.withRequirements ctx (s1 ++ s2)) w).1
          = (if (Validate act a repoDir (act.withRequirements ctx s1) w).1.failure ≠ "" then
              (Validate act a repoDir (act.withRequirements ctx s1) w).1
            else (Validate act a repoDir (act.withRequirements ctx s2) w).1))
    ∧ (∀ d1 d2 : List String,
        ValidateProjectDependencies { ctx with DependsOn := d1 ++ d2 }
          = (if (ValidateProjectDependencies { ctx with DependsOn := d1 }).failure ≠ "" then
              ValidateProjectDependencies { ctx with DependsOn := d1 }
            else ValidateProjectDependencies { ctx with DependsOn := d2 })) := by
  have main : Validate act a repoDir (act.withRequirements ctx (s1 ++ s2)) w
      = (if (Validate act a repoDir (act.withRequirements ctx s1) w).1.failure ≠ "" then
          Validate act a repoDir (act.withRequirements ctx s1) w
        else
          Validate act a repoDir (act.withRequirements ctx s2)
            (Validate act a repoDir (act.withRequirements ctx s1) w).2) := by
    simp only [Validate_withRequirements]
    rw [checkLoop_append]
    by_cases he : (checkLoop act a repoDir ctx s1 w).1.failure = ""
    · simp [he]
    · simp [he]
  refine ⟨main, ?_, ?_, ?_⟩
  · intro hrej
    rw [main, if_pos hrej]
  · intro diverged hOracle
    rw [main]
    by_cases he : (Validate act a repoDir (act.withRequirements ctx s1) w).1.failure ≠ ""
    · rw [if_pos he, if_pos he]
    · rw [if_neg he, if_neg he]
      simp only [Validate_withRequirements]
      exact checkLoop_result_of_stable act a repoDir ctx diverged hOracle s2 w _
  · intro d1 d2
    have hctx : ∀ d l : List String,
        ValidateProjectDependencies.outer { ctx with DependsOn := d } l
          = ValidateProjectDependencies.outer ctx l := by
      intro d l
      rw [outer_eq, outer_eq]
    unfold ValidateProjectDependencies
    simp only [hctx]
    exact outer_append ctx d1 d2

/-- C16 at an example: plan on a pull request that is not approved is rejected on
`[Approved]`, and appending `[UnDiverged]` keeps that result without a call of the oracle. -/
theorem validation_distributes_over_append_witness :
    (Validate Action.plan (countingHandler true) "/repo"
        (Action.plan.withRequirements ctxApprovedUnDiverged [ApprovedRequirement]) 0).1.failure
        ≠ ""
    ∧ Validate Action.plan (countingHandler true) "/repo"
          (Action.plan.withRequirements ctxApprovedUnDiverged
            ([ApprovedRequirement] ++ [UnDivergedRequirement])) 0
        = Validate Action.plan (countingHandler true) "/repo"
            (Action.plan.withRequirements ctxApprovedUnDiverged [ApprovedRequirement]) 0
    ∧ (∀ n, ((countingHandler true).WorkingDir.HasDiverged ctxApprovedUnDiverged.Log "/repo" n).1
        = true)
    ∧ (Validate Action.plan (countingHandler true) "/repo"
          (Action.plan.withRequirements ctxApprovedUnDiverged
            ([UnDivergedRequirement] ++ [ApprovedRequirement])) 0).1
        = (if (Validate Action.plan (countingHandler true) "/repo"
                (Action.plan.withRequirements ctxApprovedUnDiverged
                  [UnDivergedRequirement]) 0).1.failure ≠ "" then
            (Validate Action.plan (countingHandler true) "/repo"
              (Action.plan.withRequirements ctxApprovedUnDiverged [UnDivergedRequirement]) 0).1
          else
            (Validate Action.plan (countingHandler true) "/repo"
              (Action.plan.withRequirements ctxApprovedUnDiverged [ApprovedRequirement]) 0).1) :=
  ⟨by decide,
    (validation_distributes_over_append Action.plan (countingHandler true) "/repo"
      ctxApprovedUnDiverged 0 [ApprovedRequirement] [UnDivergedRequirement]).2.1 (by decide),
    fun _ => rfl,
    (validation_distributes_over_append Action.plan (countingHandler true) "/repo"
      ctxApprovedUnDiverged 0 [UnDivergedRequirement] [ApprovedRequirement]).2.2.1 true
      (fun _ => rfl)⟩

end Atlantis
